import Mathlib

/-!
Shallow embedding of the core data model and persistence pipeline of the
hpp-editor repository (src/hats.rs, src/hats_data.rs, src/animations.rs,
src/image.rs, src/path_utils.rs).

Modelling conventions:
* Rust `i32` values are modelled as `Int` (overflow is irrelevant to the
  claims: all quantities involved are bounded far below 2^31 in the
  scenarios considered).  Rust `f32` values (animation delays) are
  modelled as exact rationals `Rat`; `duration as f32 / 1000.0` becomes
  exact division by 1000.
* Filesystem paths are modelled as their component lists
  (`PathB := List String`), with `Path::join` as list append.  This is
  the standard abstraction of `std::path::Path` for paths without `..` /
  `.` components.
* Process-local identities (`HatElementId`, `FrameId`) are `Nat`.
  `Frame.id` and `Animation.new_frame/new_range_start/new_range_end` are
  `#[serde(skip)]` UI-scratch fields, explicitly non-persisted and never
  compared; they are omitted from the embedding.
* The filesystem is a finite-support map `PathB → Option FileData`;
  external-library (de)serialisation (serde_json, png) is modelled by
  storing structured content in `FileData` constructors.
-/

/-- Mirrors `HatType` of src/hats_data.rs (six variants, `Room` included;
`strum::EnumIter` iterates all six). -/
inductive HatType where
  | Wearable
  | Wings
  | Extra
  | FlyingPet
  | WalkingPet
  | Room
deriving DecidableEq, Repr

/-- The order `strum::EnumIter` yields `HatType` variants in
(declaration order). -/
def HatType.iterAll : List HatType :=
  [.Wearable, .Wings, .Extra, .FlyingPet, .WalkingPet, .Room]

/-- `MAX_PETS` of src/hats_data.rs. -/
def MAX_PETS : Nat := 5

/-- `MIN_FRAME_SIZE` of src/hats_data.rs. -/
def MIN_FRAME_SIZE : Int := 32

/-- 2-component integer vector (`bevy_math::IVec2`). -/
structure IVec2 where
  x : Int
  y : Int
deriving DecidableEq, Repr

/-- `IVec2::splat`. -/
def IVec2.splat (v : Int) : IVec2 := ⟨v, v⟩

instance : Inhabited IVec2 := ⟨⟨0, 0⟩⟩

/-- A filesystem path as its list of components. -/
abbrev PathB : Type := List String

/-- Mirrors `AnimType` of src/animations.rs (14 variants). -/
inductive AnimType where
  | OnDefault
  | OnPressQuack
  | OnReleaseQuack
  | OnPetStop
  | OnPetApproach
  | OnDuckDeath
  | OnDuckJump
  | OnDuckLand
  | OnDuckGlide
  | OnDuckWalk
  | OnDuckSneak
  | OnDuckNetted
  | OnDuckSpawned
  | OnHatPickedUp
deriving DecidableEq, Repr

/-- Mirrors `Frame` of src/animations.rs: `value: u32`,
`delay: Option<f32>`.  The serde-skipped UI identity tag `id` is not part
of the embedding (non-persisted, never used for content equality). -/
structure Frame where
  value : Nat
  delay : Option Rat
deriving DecidableEq, Repr

/-- `Frame::with_delay`. -/
def Frame.with_delay (value : Nat) (delay : Rat) : Frame :=
  { value := value, delay := some delay }

/-- Mirrors `Animation` of src/animations.rs; the serde-skipped UI fields
`new_frame`, `new_range_start`, `new_range_end` are omitted. -/
structure Animation where
  anim_type : AnimType
  delay : Rat
  looping : Bool
  frames : List Frame
deriving DecidableEq, Repr

/-- `Animation::new` (the UI-scratch fields it initialises are omitted). -/
def Animation.new (anim_type : AnimType) (delay : Rat) (looping : Bool)
    (frames : List Frame) : Animation :=
  { anim_type := anim_type, delay := delay, looping := looping, frames := frames }

/-- Mirrors `HatBaseData` of src/hats_data.rs. -/
structure HatBaseData where
  hat_type : HatType
  frame_size : IVec2
  local_image_path : Option PathB
  local_script_path : Option PathB
deriving DecidableEq, Repr

/-- Mirrors `PetBaseData` of src/hats_data.rs. -/
structure PetBaseData where
  distance : Int
  flipped : Bool
deriving DecidableEq, Repr

/-- `PetBaseData::default()` (`DEFAULT_PET_DISTANCE = 10`). -/
def PetBaseData.default : PetBaseData :=
  { distance := 10, flipped := false }

/-- Mirrors `WearableData` of src/hats_data.rs. -/
structure WearableData where
  base : HatBaseData
  strapped_on : Bool
  animations : List Animation
deriving DecidableEq, Repr

/-- `WearableData::default()` as written in src/hats_data.rs (tagged
`Wearable`). -/
def WearableData.default : WearableData :=
  { base :=
      { hat_type := .Wearable
        frame_size := IVec2.splat MIN_FRAME_SIZE
        local_image_path := none
        local_script_path := none }
    strapped_on := false
    animations := [] }

/-- Mirrors `WingsData` of src/hats_data.rs. -/
structure WingsData where
  general_offset : IVec2
  crouch_offset : IVec2
  ragdoll_offset : IVec2
  slide_offset : IVec2
  net_offset : IVec2
  glide_frame : Int
  idle_frame : Int
  delay : Rat
  changes_animations : Bool
  base : HatBaseData
  animations : List Animation
deriving DecidableEq, Repr

/-- `WingsData::default()` as written in src/hats_data.rs (tagged
`Wings`). -/
def WingsData.default : WingsData :=
  { general_offset := ⟨0, 0⟩
    crouch_offset := ⟨0, 0⟩
    ragdoll_offset := ⟨0, 0⟩
    slide_offset := ⟨0, 0⟩
    net_offset := ⟨0, 0⟩
    glide_frame := 0
    idle_frame := 0
    delay := 0
    changes_animations := false
    base :=
      { hat_type := .Wings
        frame_size := IVec2.splat MIN_FRAME_SIZE
        local_image_path := none
        local_script_path := none }
    animations := [] }

/-- Mirrors `FlyingPetData` of src/hats_data.rs. -/
structure FlyingPetData where
  base : HatBaseData
  pet_base : PetBaseData
  animations : List Animation
  speed : Int
deriving DecidableEq, Repr

/-- `FlyingPetData::default()` as written in src/hats_data.rs (tagged
`FlyingPet`). -/
def FlyingPetData.default : FlyingPetData :=
  { base :=
      { hat_type := .FlyingPet
        frame_size := IVec2.splat MIN_FRAME_SIZE
        local_image_path := none
        local_script_path := none }
    pet_base := PetBaseData.default
    animations := []
    speed := 0 }

/-- Mirrors `WalkingPetData` of src/hats_data.rs. -/
structure WalkingPetData where
  base : HatBaseData
  pet_base : PetBaseData
  animations : List Animation
deriving DecidableEq, Repr

/-- `WalkingPetData::default()` as written in src/hats_data.rs (tagged
`WalkingPet`). -/
def WalkingPetData.default : WalkingPetData :=
  { base :=
      { hat_type := .WalkingPet
        frame_size := IVec2.splat MIN_FRAME_SIZE
        local_image_path := none
        local_script_path := none }
    pet_base := PetBaseData.default
    animations := [] }

/-- Mirrors `ExtraHatData` of src/hats_data.rs. -/
structure ExtraHatData where
  base : HatBaseData
deriving DecidableEq, Repr

/-- `ExtraHatData::default()` exactly as written in src/hats_data.rs
lines 188-199: note the source sets `hat_type: HatType::WalkingPet`. -/
def ExtraHatData.default : ExtraHatData :=
  { base :=
      { hat_type := .WalkingPet
        frame_size := IVec2.splat MIN_FRAME_SIZE
        local_image_path := none
        local_script_path := none } }

/-- Mirrors the tagged union `HatElementData` of src/hats_data.rs. -/
inductive HatElementData where
  | Wearable (d : WearableData)
  | Wings (d : WingsData)
  | Extra (d : ExtraHatData)
  | FlyingPet (d : FlyingPetData)
  | WalkingPet (d : WalkingPetData)
deriving DecidableEq, Repr

/-- `HatElementData::base`. -/
def HatElementData.base : HatElementData → HatBaseData
  | .Wearable d => d.base
  | .Wings d => d.base
  | .Extra d => d.base
  | .FlyingPet d => d.base
  | .WalkingPet d => d.base

/-- `HatElementData::base_mut` followed by writing a whole new base:
replaces the embedded base. -/
def HatElementData.withBase : HatElementData → HatBaseData → HatElementData
  | .Wearable d, b => .Wearable { d with base := b }
  | .Wings d, b => .Wings { d with base := b }
  | .Extra d, b => .Extra { d with base := b }
  | .FlyingPet d, b => .FlyingPet { d with base := b }
  | .WalkingPet d, b => .WalkingPet { d with base := b }

/-- Mirrors `HatData` of src/hats_data.rs. -/
structure HatData where
  elements : List HatElementData
  name : String
deriving DecidableEq, Repr

/-- `HatData::new`. -/
def HatData.new (name : String) : HatData :=
  { elements := [], name := name }

/-- Opaque decoded pixel content of a bitmap plus its dimensions
(`pixas::bitmap::Bitmap` is external; only dimensions, path and
semantic pixel content matter to the core). -/
structure PixelData where
  width : Int
  height : Int
  pix : Nat
deriving DecidableEq, Repr

/-- A decoded bitmap: its source path (if loaded from disk) and content
(`Bitmap::path`, dimensions, pixels). -/
structure Bitmap where
  path : Option PathB
  content : PixelData
deriving DecidableEq, Repr

/-- Mirrors `Texture` of src/texture.rs as seen by the core: dimensions
(copied from the bitmap in `Texture::from_bitmap`) and source path.  The
GPU handle is irrelevant to the claims. -/
structure Texture where
  width : Int
  height : Int
  path : Option PathB
deriving DecidableEq, Repr

/-- `Texture::from_bitmap` (dimension/path part). -/
def Texture.from_bitmap (b : Bitmap) : Texture :=
  { width := b.content.width, height := b.content.height, path := b.path }

/-- A runtime hat element (`WearableHat` / `WingsHat` / `ExtraHat` /
`FlyingPetHat` / `WalkingPetHat` of src/hats.rs): the struct variant is
carried by the `HatElementData` tag of `data`; plus texture, bitmap and
process-local id. -/
structure HatElementR where
  data : HatElementData
  texture : Texture
  bitmap : Bitmap
  id : Nat
deriving DecidableEq, Repr

/-- `HatElement::base`. -/
def HatElementR.base (e : HatElementR) : HatBaseData := e.data.base

/-- `is_unique` as implemented by the `impl_hat_element!` invocations of
src/hats.rs lines 187-191: `true` exactly for the `WearableHat` and
`WingsHat` struct variants. -/
def HatElementR.is_unique (e : HatElementR) : Bool :=
  match e.data with
  | .Wearable _ => true
  | .Wings _ => true
  | _ => false

/-- `IsPet::is_pet` of src/hats.rs lines 69-76: decided by the
`hat_type` tag of the element's base data. -/
def HatElementR.is_pet (e : HatElementR) : Bool :=
  e.base.hat_type = HatType.WalkingPet || e.base.hat_type = HatType.FlyingPet

/-- `HatElement::frames_amount` of src/hats.rs lines 122-126: integer
division of the texture dimensions by the per-element frame size (Rust
`i32` division truncates toward zero, `Int.tdiv`). -/
def HatElementR.frames_amount (e : HatElementR) : Int :=
  (e.texture.width.tdiv e.base.frame_size.x) *
    (e.texture.height.tdiv e.base.frame_size.y)

/-- `HatElement::animations` (`None` for the `Extra` variant). -/
def HatElementR.animations (e : HatElementR) : Option (List Animation) :=
  match e.data with
  | .Wearable d => some d.animations
  | .Wings d => some d.animations
  | .Extra _ => none
  | .FlyingPet d => some d.animations
  | .WalkingPet d => some d.animations

/-- Mirrors `Hat` of src/hats.rs: elements are kept in a map keyed by
`HatElementId`, embedded as an association list whose insert replaces an
existing key in place and otherwise appends. -/
structure Hat where
  elements : List (Nat × HatElementR)
  path : PathB
  name : String
  name_set_by_user : Bool
  id : Nat
deriving DecidableEq, Repr

/-- `Hat::new`. -/
def Hat.new (path : PathB) (name : String) (id : Nat) : Hat :=
  { elements := [], path := path, name := name, name_set_by_user := false, id := id }

/-- `HashMap::insert` on the association list: replace the value at an
existing key, append otherwise. -/
def assocInsert (k : Nat) (v : HatElementR) :
    List (Nat × HatElementR) → List (Nat × HatElementR)
  | [] => [(k, v)]
  | (k', v') :: rest =>
      if k' = k then (k, v) :: rest else (k', v') :: assocInsert k v rest

/-- `Hat::elements()` (the iterated element values). -/
def Hat.elementsL (h : Hat) : List HatElementR := h.elements.map Prod.snd

/-- `Hat::pets_amount`. -/
def Hat.pets_amount (h : Hat) : Nat :=
  (h.elementsL.filter (fun e => e.is_pet)).length

/-- `Hat::can_add_pets`. -/
def Hat.can_add_pets (h : Hat) : Bool :=
  h.pets_amount < MAX_PETS

/-- `Hat::has_element`. -/
def Hat.has_element (h : Hat) (t : HatType) : Bool :=
  h.elementsL.any (fun e => e.base.hat_type = t)

/-- `Hat::can_add_elements` of src/hats.rs lines 363-365: iterates
every `HatType` variant via `HatType::iter()` (all six, `Room`
included). -/
def Hat.can_add_elements (h : Hat) : Bool :=
  h.can_add_pets && !(HatType.iterAll.all (fun t => h.has_element t))

/-- `Hat::add_element` of src/hats.rs lines 367-375. -/
def Hat.add_element (h : Hat) (e : HatElementR) : Hat :=
  if e.is_pet && !h.can_add_pets then h
  else if e.is_unique && h.has_element e.base.hat_type then h
  else { h with elements := assocInsert e.id e h.elements }

/-- `Hat::element_exists` / key membership. -/
def Hat.hasId (h : Hat) (id : Nat) : Bool :=
  h.elements.any (fun p => p.fst = id)

/-- `variantKind`: the `HatType` that names the tagged-union constructor
an element data value was built with (the struct variant in Rust). -/
def HatElementData.variantKind : HatElementData → HatType
  | .Wearable _ => .Wearable
  | .Wings _ => .Wings
  | .Extra _ => .Extra
  | .FlyingPet _ => .FlyingPet
  | .WalkingPet _ => .WalkingPet

/-- Well-formedness of a runtime element: the `hat_type` tag stored in
its base data agrees with its struct variant (true of every element the
editor constructs through the intended per-kind constructors). -/
def HatElementR.tagOk (e : HatElementR) : Prop :=
  e.base.hat_type = e.data.variantKind

instance (e : HatElementR) : Decidable e.tagOk := by
  unfold HatElementR.tagOk; infer_instance

/-- Number of elements whose base tag equals `t`. -/
def Hat.countTag (h : Hat) (t : HatType) : Nat :=
  (h.elementsL.filter (fun e => e.base.hat_type = t)).length

/-- `LocalPathError` of src/path_utils.rs. -/
inductive LocalPathError where
  | PathNotInDir
deriving DecidableEq, Repr

/-- All suffixes of a list, longest first, ending with `[]`. -/
def tailsL : List String → List (List String)
  | [] => [[]]
  | a :: rest => (a :: rest) :: tailsL rest

/-- `Path::ancestors` of std, on the component-list model: the path,
its parent, and so on down to the empty path. -/
def ancestors (p : PathB) : List PathB :=
  (tailsL p.reverse).map List.reverse

/-- The body of the `for` loop of `LocalPath::local_path`
(src/path_utils.rs lines 24-29): push each component (scanning from the
last one), stop right after the ancestor matching the target directory. -/
def collectParts (dir : PathB) : List (String × PathB) → List String
  | [] => []
  | (c, anc) :: rest => if anc = dir then [c] else c :: collectParts dir rest

/-- `LocalPath::local_path` of src/path_utils.rs. -/
def localPath (p dir : PathB) : Except LocalPathError PathB :=
  let is_in_dir := dir = ([] : PathB) || (ancestors p).any (fun a => dir = a)
  if !is_in_dir then .error .PathNotInDir
  else .ok ((collectParts dir (p.reverse.zip ((ancestors p).drop 1))).reverse)

/-- `OsString::push` on the final component of a path: the save/export
temp-file naming (`path + "_" + uuid`) appends to the last component. -/
def appendToLast (p : PathB) (s : String) : PathB :=
  match p with
  | [] => [s]
  | [a] => [a ++ s]
  | a :: b :: rest => a :: appendToLast (b :: rest) s

/-- The temporary sibling path used by the atomic-write discipline of
`Hat::save` / `Hat::export_to_file`: destination path + `_` + suffix,
where `suffix` stands for the freshly generated `Uuid::new_v4()`. -/
def uuidSibling (p : PathB) (suffix : String) : PathB :=
  appendToLast p ("_" ++ suffix)

/-- Content of one filesystem entry.  External (de)serialisation
(serde_json, png encode/decode, zip) is modelled structurally: writing
`data.json` stores the `HatData` value itself, and parsing recovers it
(serde round-tripping is a property of the external serde library, not
of this repository). -/
inductive FileData where
  | dir
  | hatJson (d : HatData)
  | png (px : PixelData)
  | archive (d : HatData) (images : List (PathB × PixelData))
  | raw (s : String)
deriving DecidableEq, Repr

/-- The filesystem: a map from paths to entry contents. -/
def FS : Type := PathB → Option FileData

/-- `std::fs::exists` / `Path::exists`. -/
def FS.existsP (fs : FS) (p : PathB) : Bool :=
  (fs p).isSome

/-- Creating/overwriting a file. -/
def FS.insertP (fs : FS) (p : PathB) (v : FileData) : FS :=
  fun q => if q = p then some v else fs q

/-- `std::fs::remove_file`. -/
def FS.eraseP (fs : FS) (p : PathB) : FS :=
  fun q => if q = p then none else fs q

/-- `std::fs::rename src dst`: the destination receives the source's
content and the source entry disappears. -/
def FS.renameP (fs : FS) (src dst : PathB) : FS :=
  fun q => if q = dst then fs src else if q = src then none else fs q

/-- The error of `Hat::check_files_integrity`: a missing file or
directory, naming the offending path (the source formats it into the
`bail!` message). -/
inductive IntegrityError where
  | missing (p : PathB)
deriving DecidableEq, Repr

/-- The element loop of `Hat::check_files_integrity` (src/hats.rs lines
574-589): for each element check the image path then the script path,
each resolved against the root. -/
def checkElems (root : PathB) (fs : FS) : List HatElementR → Except IntegrityError Unit
  | [] => .ok ()
  | e :: rest =>
    let imageOk : Except IntegrityError Unit :=
      match e.base.local_image_path with
      | some p => if !fs.existsP (root ++ p) then .error (.missing (root ++ p)) else .ok ()
      | none => .ok ()
    match imageOk with
    | .error err => .error err
    | .ok () =>
      let scriptOk : Except IntegrityError Unit :=
        match e.base.local_script_path with
        | some p => if !fs.existsP (root ++ p) then .error (.missing (root ++ p)) else .ok ()
        | none => .ok ()
      match scriptOk with
      | .error err => .error err
      | .ok () => checkElems root fs rest

/-- `Hat::check_files_integrity` of src/hats.rs lines 570-592. -/
def Hat.check_files_integrity (h : Hat) (fs : FS) : Except IntegrityError Unit :=
  if !fs.existsP h.path then .error (.missing h.path)
  else checkElems h.path fs h.elementsL

/-- `HatSaveType` of src/hats.rs. -/
inductive HatSaveType where
  | Folder
  | File
deriving DecidableEq, Repr

/-- Failures of `Hat::gen_hat_data`.  Both are panics in the source
(`bitmap().path().unwrap()` and the `todo!()` arm on
`LocalPathError::PathNotInDir`), i.e. conditions surfaced loudly; the
embedding returns them as errors. -/
inductive GenError where
  | noBitmapPath
  | pathEscapesRoot
deriving DecidableEq, Repr

/-- The element loop of `Hat::gen_hat_data` (src/hats.rs lines
549-566): compute each element's persisted image path, clone its data
and overwrite `local_image_path`. -/
def genElems (root : PathB) (st : HatSaveType) : List HatElementR → Except GenError (List HatElementData)
  | [] => .ok []
  | e :: rest =>
    let lip : Except GenError PathB :=
      match st with
      | .Folder =>
        match e.bitmap.path with
        | none => .error .noBitmapPath
        | some ip =>
          match localPath ip root with
          | .ok p => .ok p
          | .error .PathNotInDir => .error .pathEscapesRoot
      | .File => .ok (["images", toString e.id ++ ".png"] : PathB)
    match lip with
    | .error err => .error err
    | .ok p =>
      match genElems root st rest with
      | .error err => .error err
      | .ok ds => .ok ((e.data.withBase { e.data.base with local_image_path := some p }) :: ds)

/-- `Hat::gen_hat_data` of src/hats.rs lines 547-568. -/
def Hat.gen_hat_data (h : Hat) (st : HatSaveType) : Except GenError HatData :=
  (genElems h.path st h.elementsL).map (fun ds => { elements := ds, name := h.name })

/-- Failures of `Hat::save` / `Hat::export_to_file`.  `removeDest`
models an io error returned by `std::fs::remove_file` on the
destination (the only io failure the claims quantify over; it is driven
by the explicit oracle argument below). -/
inductive SaveError where
  | integrity (e : IntegrityError)
  | gen (e : GenError)
  | removeDest
deriving DecidableEq, Repr

/-- `Hat::save` of src/hats.rs lines 511-545, returning the resulting
filesystem alongside the result.  `suffix` stands for the random uuid;
`deleteDestFails` is the oracle for whether the
`std::fs::remove_file(&path)` call on the destination fails. -/
def Hat.save (h : Hat) (fs : FS) (suffix : String) (deleteDestFails : Bool) :
    FS × Except SaveError Unit :=
  match h.check_files_integrity fs with
  | .error e => (fs, .error (.integrity e))
  | .ok () =>
    let dest := h.path ++ (["data.json"] : PathB)
    let tmp := uuidSibling dest suffix
    let fs1 := fs.insertP tmp (.raw "")
    match h.gen_hat_data .Folder with
    | .error e => (fs1, .error (.gen e))
    | .ok data =>
      let fs2 := fs1.insertP tmp (.hatJson data)
      if fs2.existsP dest then
        if deleteDestFails then (fs2.eraseP tmp, .error .removeDest)
        else ((fs2.eraseP dest).renameP tmp dest, .ok ())
      else (fs2.renameP tmp dest, .ok ())

/-- `Hat::export_to_file` of src/hats.rs lines 594-661, with the same
conventions as `Hat.save`.  The zip archive assembled through
`ZipWriter` is modelled as a single structured entry holding the
snapshot and the per-element re-encoded images (in-memory png encoding
is assumed to succeed). -/
def Hat.export_to_file (h : Hat) (fs : FS) (dest : PathB) (suffix : String)
    (deleteDestFails : Bool) : FS × Except SaveError Unit :=
  match h.check_files_integrity fs with
  | .error e => (fs, .error (.integrity e))
  | .ok () =>
    let tmp := uuidSibling dest suffix
    let fs1 := fs.insertP tmp (.raw "")
    match h.gen_hat_data .File with
    | .error e => (fs1, .error (.gen e))
    | .ok data =>
      let images := (data.elements.zip h.elementsL).map
        (fun p => (p.1.base.local_image_path.getD ([] : PathB), p.2.bitmap.content))
      let fs2 := fs1.insertP tmp (.archive data images)
      if fs2.existsP dest then
        if deleteDestFails then (fs2.eraseP tmp, .error .removeDest)
        else ((fs2.eraseP dest).renameP tmp dest, .ok ())
      else (fs2.renameP tmp dest, .ok ())

/-- One frame of an aseprite source file (`asefile::Frame` as consumed
by src/image.rs): its pixel content and its authored duration in
milliseconds. -/
structure AseFrameA where
  pix : Nat
  duration : Nat
deriving DecidableEq, Repr

/-- One tag of an aseprite source file (`asefile::Tag` as consumed by
src/image.rs): its name and the frame range bounds the source reads via
`from_frame()` / `to_frame()`. -/
structure AseTag where
  name : String
  fromFrame : Nat
  toFrame : Nat
deriving DecidableEq, Repr

/-- An aseprite source file (`asefile::AsepriteFile` as consumed by
src/image.rs): per-frame dimensions, the frame list, the tag list. -/
structure AseFile where
  width : Int
  height : Int
  frames : List AseFrameA
  tags : List AseTag
deriving DecidableEq, Repr

/-- `ase_file.frame(f).duration()`, totalised (the accessor is only
ever applied to in-range indices in the scenarios the claims cover). -/
def AseFile.durationAt (a : AseFile) (f : Nat) : Nat :=
  ((a.frames.get? f).map AseFrameA.duration).getD 0

/-- `size_scale_x` of `bitmap_from_ase` (src/image.rs line 29):
`(frames.len() as f64).sqrt().ceil() as i32`, i.e. the ceiling of the
square root of the frame count.  The embedding computes it exactly over
`Nat`; IEEE-754 double sqrt is correctly rounded, so the two agree for
every frame count a real file can hold. -/
def sizeScaleX (n : Nat) : Nat :=
  if n = 0 then 0 else Nat.sqrt (n - 1) + 1

/-- `size_scale_y` of `bitmap_from_ase` (src/image.rs lines 31-41):
one row is shaved off exactly when the last row would be entirely
empty.  (For `n = 0` the source computes `-1_i32`; the embedding
saturates at `0`, and every claim about this function assumes at least
one frame.) -/
def sizeScaleY (n : Nat) : Nat :=
  let x := sizeScaleX n
  let maxFrames := x * x
  let emptyFrames := maxFrames - n
  if x ≤ emptyFrames then x - 1 else x

/-- The inner `for y in 0..size_scale_y` loop of `bitmap_from_ase`
(src/image.rs lines 46-57) for a fixed column `x`: draw the frame at
index `y*w + x` into cell `(x, y)`, and break out of the loop at the
first index with no frame.  `rem` is the remaining fuel
`size_scale_y - y`. -/
def colLoop (n w x : Nat) : Nat → Nat → List (Nat × Nat × Nat)
  | _, 0 => []
  | y, rem + 1 =>
    if y * w + x < n then (y * w + x, x, y) :: colLoop n w x (y + 1) rem else []

/-- All frame placements performed by the nested draw loops of
`bitmap_from_ase`: triples (frame index, cell x, cell y); a cell
`(x, y)` holds the pixel block at offset `(x*frameW, y*frameH)`. -/
def placements (n : Nat) : List (Nat × Nat × Nat) :=
  (List.range (sizeScaleX n)).flatMap (fun x => colLoop n (sizeScaleX n) x 0 (sizeScaleY n))

/-- The composite sprite sheet produced by `bitmap_from_ase`
(src/image.rs lines 17-59): its dimensions and the list of frame
placements.  The concrete pixel content of the composite is opaque to
every claim. -/
structure AseSheet where
  width : Int
  height : Int
  draws : List (Nat × Nat × Nat)
deriving DecidableEq, Repr

/-- `bitmap_from_ase` of src/image.rs. -/
def bitmap_from_ase (a : AseFile) : AseSheet :=
  let n := a.frames.length
  { width := a.width * (sizeScaleX n : Int)
    height := a.height * (sizeScaleY n : Int)
    draws := placements n }

/-- Alias for the bitmap structure, usable inside the `Image` namespace
where the bare name `Bitmap` refers to the `Image.Bitmap` constructor. -/
abbrev BitmapR : Type := Bitmap

/-- Mirrors `Image` of src/image.rs. -/
inductive Image where
  | Bitmap (b : Bitmap)
  | Aseprite (a : AseFile) (path : PathB)
deriving DecidableEq, Repr

/-- `AsepriteData` of src/image.rs. -/
structure AsepriteData where
  frame_size : IVec2
  animations : List Animation
deriving DecidableEq, Repr

/-- The fixed tag-name table of `Image::aseprite_data` (src/image.rs
lines 102-121), applied to the lowercased tag name; an unlisted name
yields `none` (the source logs a warning and drops the tag). -/
def nameToAnimType (s : String) : Option AnimType :=
  if s = "ondefault" then some .OnDefault
  else if s = "onpressquack" then some .OnPressQuack
  else if s = "onreleasequack" then some .OnReleaseQuack
  else if s = "onpetstop" then some .OnPetStop
  else if s = "onpetapproach" then some .OnPetApproach
  else if s = "onduckdeath" then some .OnDuckDeath
  else if s = "onduckjump" then some .OnDuckJump
  else if s = "onduckland" then some .OnDuckLand
  else if s = "onduckglide" then some .OnDuckGlide
  else if s = "onduckwalk" then some .OnDuckWalk
  else if s = "onducksneak" then some .OnDuckSneak
  else if s = "onducknetted" then some .OnDuckNetted
  else if s = "onduckspawned" then some .OnDuckSpawned
  else if s = "onhatpickedup" then some .OnHatPickedUp
  else none

/-- The frame list extracted for one recognised tag
(src/image.rs lines 126-131): one `Frame` per index of the source
range expression `t.from_frame()..t.to_frame()`, carrying the authored
duration converted to seconds. -/
def tagFrames (a : AseFile) (t : AseTag) : List Frame :=
  (List.range' t.fromFrame (t.toFrame - t.fromFrame)).map
    (fun f => Frame.with_delay f ((a.durationAt f : Rat) / 1000))

/-- `Image::aseprite_data` of src/image.rs lines 93-136. -/
def Image.aseprite_data : Image → Option AsepriteData
  | .Bitmap _ => none
  | .Aseprite a _ =>
    some
      { frame_size := ⟨a.width, a.height⟩
        animations :=
          (a.tags.filterMap
              (fun t => (nameToAnimType t.name.toLower).map (fun k => (t, k)))).map
            (fun tk => Animation.new tk.2 (-1) false (tagFrames a tk.1)) }

/-- Pixel content of the composite sheet; opaque (no claim compares the
composite's pixels, only its dimensions and frame placement). -/
def AseSheet.pix : AseSheet → Nat := fun _ => 0

/-- `Image::to_bitmap_with_data` of src/image.rs lines 83-91.  In the
aseprite branch the produced bitmap is the composite sheet
(`Bitmap::empty` carries no source path). -/
def Image.to_bitmap_with_data : Image → BitmapR × Option AsepriteData
  | .Bitmap b => (b, none)
  | .Aseprite a p =>
    let sheet := bitmap_from_ase a
    ({ path := none, content := { width := sheet.width, height := sheet.height, pix := sheet.pix } },
      (Image.Aseprite a p).aseprite_data)

/-- The overwrite step of `LoadHatElement::load`
(src/hats.rs lines 225-258): extracted aseprite metadata overwrites
`base.frame_size`, and `animations` for the four animatable kinds
(`Extra` has no animations field, `@manual` arm). -/
def HatElementData.applyAse (d : HatElementData) (ad : AsepriteData) : HatElementData :=
  match d with
  | .Wearable w =>
    .Wearable { w with base := { w.base with frame_size := ad.frame_size }, animations := ad.animations }
  | .Wings w =>
    .Wings { w with base := { w.base with frame_size := ad.frame_size }, animations := ad.animations }
  | .Extra e => .Extra { e with base := { e.base with frame_size := ad.frame_size } }
  | .FlyingPet w =>
    .FlyingPet { w with base := { w.base with frame_size := ad.frame_size }, animations := ad.animations }
  | .WalkingPet w =>
    .WalkingPet { w with base := { w.base with frame_size := ad.frame_size }, animations := ad.animations }

/-- `LoadHatElement::load` (all five kinds share this shape): decode
the image, let extracted metadata overwrite the stale data fields,
build the texture from the bitmap, assign the fresh id. -/
def loadHatElement (d : HatElementData) (img : Image) (id : Nat) : HatElementR :=
  let bd := img.to_bitmap_with_data
  let d2 := match bd.2 with
    | some ad => d.applyAse ad
    | none => d
  { data := d2, texture := Texture.from_bitmap bd.1, bitmap := bd.1, id := id }

/-- Failures of `Hat::load` (src/hats.rs lines 389-453): a missing
root or images directory, an unreadable/unparseable `data.json`, the
`local_image_path.unwrap()` panic, or an unreadable image file. -/
inductive LoadError where
  | missingDir (p : PathB)
  | parse (p : PathB)
  | missingImagePath
  | imageRead (p : PathB)
deriving DecidableEq, Repr

/-- The element loop of `Hat::load` (src/hats.rs lines 426-451): read
each element's image relative to the root and add the reconstructed
element.  `nextId` threads the `HAT_ID_COUNTER` thread-local. -/
def loadElems (root : PathB) (fs : FS) : List HatElementData → Nat → Hat → Except LoadError Hat
  | [], _, hat => .ok hat
  | d :: rest, nextId, hat =>
    match d.base.local_image_path with
    | none => .error .missingImagePath
    | some lip =>
      let ip := root ++ lip
      match fs ip with
      | some (.png px) =>
        let b : Bitmap := { path := some ip, content := px }
        loadElems root fs rest (nextId + 1)
          (hat.add_element (loadHatElement d (.Bitmap b) nextId))
      | _ => .error (.imageRead ip)

/-- `Hat::load` of src/hats.rs lines 389-453, returning the resulting
filesystem as well (an absent `data.json` is synthesised and written
back before elements are processed). -/
def Hat.load (root : PathB) (fs : FS) (startId hatId : Nat) :
    Except LoadError (Hat × FS) :=
  if !fs.existsP root then .error (.missingDir root)
  else if !fs.existsP (root ++ ["images"]) then .error (.missingDir (root ++ ["images"]))
  else
    let dataPath := root ++ (["data.json"] : PathB)
    match fs dataPath with
    | some (.hatJson d) =>
      (loadElems root fs d.elements startId (Hat.new root d.name hatId)).map (fun h => (h, fs))
    | some _ => .error (.parse dataPath)
    | none =>
      let d := HatData.new "Default"
      let fs1 := fs.insertP dataPath (.hatJson d)
      (loadElems root fs1 d.elements startId (Hat.new root d.name hatId)).map (fun h => (h, fs1))

/-- The image-path-erased view of an element's data: what "same element
kind, same per-kind configuration fields, same frame/animation data"
compares (the persisted image path is recomputed by save and so differs
by design; script path, frame size, kind tag and every per-kind field
are kept). -/
def HatElementData.withImagePath (d : HatElementData) (p : Option PathB) : HatElementData :=
  d.withBase { d.base with local_image_path := p }

/-- Semantic view of a runtime element for the round-trip claim: its
data up to the persisted image path, plus the bitmap's semantic pixel
content (dimensions and pixels; texture handle and process-local id are
excluded). -/
def HatElementR.semView (e : HatElementR) : HatElementData × PixelData :=
  (e.data.withImagePath none, e.bitmap.content)

section Helpers

/-- Every `HatType` variant occurs in the `EnumIter` list. -/
lemma HatType.mem_iterAll (t : HatType) : t ∈ HatType.iterAll := by
  cases t <;> simp [HatType.iterAll]

/-- Inserting into the element map adds at most one element satisfying
a predicate (a replaced entry can only lower the count). -/
lemma length_filter_assocInsert (p : HatElementR → Bool) (k : Nat) (v : HatElementR)
    (l : List (Nat × HatElementR)) :
    (((assocInsert k v l).map Prod.snd).filter p).length ≤
      ((l.map Prod.snd).filter p).length + (if p v then 1 else 0) := by
  induction l with
  | nil =>
    cases hp : p v <;> simp [assocInsert, hp]
  | cons a rest ih =>
    obtain ⟨k', v'⟩ := a
    by_cases hk : k' = k
    · simp only [assocInsert, if_pos hk, List.map_cons, List.filter_cons]
      cases hp : p v <;> cases hp' : p v' <;> simp [hp, hp'] <;> omega
    · simp only [assocInsert, if_neg hk, List.map_cons, List.filter_cons]
      cases hp' : p v' <;> simp [hp'] <;> omega

/-- If no element satisfies the tag predicate, the tag count is zero. -/
lemma countTag_eq_zero_of_not_has (h : Hat) (t : HatType)
    (hne : h.has_element t = false) : h.countTag t = 0 := by
  unfold Hat.countTag
  unfold Hat.has_element at hne
  rw [List.any_eq_false] at hne
  have : h.elementsL.filter (fun e => e.base.hat_type = t) = [] := by
    rw [List.filter_eq_nil_iff]
    intro a ha
    exact fun hc => by simpa [hc] using hne a ha
  rw [this]; rfl

end Helpers

/-- C10: the per-variant Default constructors and their embedded
`hat_type` tags, as written in src/hats_data.rs: the four
Wearable/Wings/FlyingPet/WalkingPet defaults are tagged with their own
kind, but `ExtraHatData::default()` is tagged `WalkingPet`, not
`Extra` — a freshly defaulted Extra data value misreports its element
kind. -/
theorem C10_default_kind_tags :
    WearableData.default.base.hat_type = HatType.Wearable ∧
    WingsData.default.base.hat_type = HatType.Wings ∧
    FlyingPetData.default.base.hat_type = HatType.FlyingPet ∧
    WalkingPetData.default.base.hat_type = HatType.WalkingPet ∧
    ExtraHatData.default.base.hat_type = HatType.WalkingPet ∧
    HatType.WalkingPet ≠ HatType.Extra :=
  ⟨rfl, rfl, rfl, rfl, rfl, by decide⟩

/-- C9: for strictly positive frame-size components (and the
nonnegative texture dimensions every real texture has),
`frames_amount` is the product of the floor divisions of the sheet
dimensions by the frame size. -/
theorem C9_frames_amount (e : HatElementR)
    (hw : 0 ≤ e.texture.width) (hh : 0 ≤ e.texture.height)
    (hx : 0 < e.base.frame_size.x) (hy : 0 < e.base.frame_size.y) :
    e.frames_amount =
      e.texture.width / e.base.frame_size.x *
        (e.texture.height / e.base.frame_size.y) ∧
    e.texture.width / e.base.frame_size.x =
      ⌊(e.texture.width : ℚ) / (e.base.frame_size.x : ℚ)⌋ ∧
    e.texture.height / e.base.frame_size.y =
      ⌊(e.texture.height : ℚ) / (e.base.frame_size.y : ℚ)⌋ := by
  refine ⟨?_, ?_, ?_⟩
  · unfold HatElementR.frames_amount
    rw [Int.tdiv_eq_ediv hw (le_of_lt hx), Int.tdiv_eq_ediv hh (le_of_lt hy)]
  · have h1 : e.base.frame_size.x = ((e.base.frame_size.x.toNat : ℤ)) :=
      (Int.toNat_of_nonneg hx.le).symm
    rw [h1]
    push_cast
    exact (Rat.floor_intCast_div_natCast _ _).symm
  · have h1 : e.base.frame_size.y = ((e.base.frame_size.y.toNat : ℤ)) :=
      (Int.toNat_of_nonneg hy.le).symm
    rw [h1]
    push_cast
    exact (Rat.floor_intCast_div_natCast _ _).symm

/-- Concrete element used by witnesses: a 70x64 sheet with 32x32
frames. -/
def c9Elem : HatElementR :=
  { data := .Wearable WearableData.default
    texture := { width := 70, height := 64, path := none }
    bitmap := { path := none, content := ⟨70, 64, 0⟩ }
    id := 0 }

/-- Witness for C9 at `c9Elem`: 70/32 * 64/32 = 2 * 2. -/
theorem C9_frames_amount_witness :
    (0 ≤ c9Elem.texture.width) ∧ (0 ≤ c9Elem.texture.height) ∧
    (0 < c9Elem.base.frame_size.x) ∧ (0 < c9Elem.base.frame_size.y) ∧
    (c9Elem.frames_amount =
        c9Elem.texture.width / c9Elem.base.frame_size.x *
          (c9Elem.texture.height / c9Elem.base.frame_size.y) ∧
      c9Elem.texture.width / c9Elem.base.frame_size.x =
        ⌊(c9Elem.texture.width : ℚ) / (c9Elem.base.frame_size.x : ℚ)⌋ ∧
      c9Elem.texture.height / c9Elem.base.frame_size.y =
        ⌊(c9Elem.texture.height : ℚ) / (c9Elem.base.frame_size.y : ℚ)⌋) :=
  ⟨by decide, by decide, by decide, by decide,
    C9_frames_amount c9Elem (by decide) (by decide) (by decide) (by decide)⟩

/-- A minimal runtime element around a given data value (32x32 sheet,
no source path) used by the concrete counterexamples and witnesses. -/
def mkElemC (d : HatElementData) (id : Nat) : HatElementR :=
  { data := d
    texture := { width := 32, height := 32, path := none }
    bitmap := { path := none, content := ⟨32, 32, 0⟩ }
    id := id }

/-- Extra-element data honestly tagged `Extra`. -/
def extraDataTagged : ExtraHatData :=
  { base :=
      { hat_type := .Extra
        frame_size := IVec2.splat MIN_FRAME_SIZE
        local_image_path := none
        local_script_path := none } }

/-- A hat holding one element of each of the five element kinds
(two of them pets). -/
def c5Hat : Hat :=
  { elements :=
      [(1, mkElemC (.Wearable WearableData.default) 1),
        (2, mkElemC (.Wings WingsData.default) 2),
        (3, mkElemC (.Extra extraDataTagged) 3),
        (4, mkElemC (.FlyingPet FlyingPetData.default) 4),
        (5, mkElemC (.WalkingPet WalkingPetData.default) 5)]
    path := []
    name := "five"
    name_set_by_user := false
    id := 0 }

/-- C5 counterexample: `c5Hat` holds an element of every one of the
five element kinds (so the claim's right-hand side is false: pet
capacity remains but no kind of the five is absent), yet
`can_add_elements()` returns true — the source iterates all six
`HatType` variants and the unmatchable `Room` variant is always
absent. -/
theorem C5_counterexample :
    c5Hat.can_add_elements = true ∧
    c5Hat.can_add_pets = true ∧
    ([HatType.Wearable, .Wings, .Extra, .FlyingPet, .WalkingPet].all
        (fun t => c5Hat.has_element t)) = true := by
  refine ⟨by decide, by decide, by decide⟩

/-- C5 amended: `can_add_elements()` is true iff pet capacity remains
and at least one of the six `HatType` variants (`Room` included) is
absent; since no element ever carries the `Room` tag, the second
conjunct is vacuously satisfied in every reachable aggregate. -/
theorem C5_can_add_elements_amended (h : Hat) :
    h.can_add_elements = true ↔
      (h.can_add_pets = true ∧ ∃ t : HatType, h.has_element t = false) := by
  unfold Hat.can_add_elements
  rw [Bool.and_eq_true, Bool.not_eq_true', List.all_eq_false]
  constructor
  · rintro ⟨h1, t, _, ht⟩
    exact ⟨h1, t, by simpa using ht⟩
  · rintro ⟨h1, t, ht⟩
    exact ⟨h1, t, HatType.mem_iterAll t, by simpa using ht⟩

/-- With a truthful kind tag, `is_unique` holds exactly for the
Wearable and Wings kinds. -/
lemma is_unique_iff_tag (e : HatElementR) (htag : e.tagOk) :
    e.is_unique = true ↔
      (e.base.hat_type = HatType.Wearable ∨ e.base.hat_type = HatType.Wings) := by
  unfold HatElementR.tagOk at htag
  rw [htag]
  obtain ⟨d, tex, bm, i⟩ := e
  cases d <;> simp [HatElementR.is_unique, HatElementData.variantKind]

/-- C3: `add_element` is a silent no-op when adding a pet to an
aggregate already at the pet cap, and when adding a unique-kind
(Wearable/Wings) element whose kind is already present; in every other
case the element is inserted keyed by its id; consequently the pet cap
and the at-most-one-Wearable / at-most-one-Wings counts are invariants
of `add_element`.  The element is assumed well-formed (its base tag
truthfully names its variant), which every intended constructor
guarantees. -/
theorem C3_add_element (h : Hat) (e : HatElementR) (htag : e.tagOk) :
    (e.is_pet = true → MAX_PETS ≤ h.pets_amount → h.add_element e = h) ∧
    (e.is_unique = true → h.has_element e.base.hat_type = true → h.add_element e = h) ∧
    (e.is_unique = true ↔
      (e.base.hat_type = HatType.Wearable ∨ e.base.hat_type = HatType.Wings)) ∧
    ((e.is_pet = true → h.pets_amount < MAX_PETS) →
      (e.is_unique = true → h.has_element e.base.hat_type = false) →
      (h.add_element e).elements = assocInsert e.id e h.elements) ∧
    (h.pets_amount ≤ MAX_PETS → (h.add_element e).pets_amount ≤ MAX_PETS) ∧
    (h.countTag .Wearable ≤ 1 → (h.add_element e).countTag .Wearable ≤ 1) ∧
    (h.countTag .Wings ≤ 1 → (h.add_element e).countTag .Wings ≤ 1) := by
  have huniqiff := is_unique_iff_tag e htag
  have hinsert_pets :
      ∀ hx : Hat, hx.elements = assocInsert e.id e h.elements →
        hx.pets_amount ≤ h.pets_amount + (if e.is_pet then 1 else 0) := by
    intro hx hxe
    unfold Hat.pets_amount Hat.elementsL
    rw [hxe]
    exact length_filter_assocInsert _ e.id e h.elements
  have hinsert_tag :
      ∀ (t : HatType) (hx : Hat), hx.elements = assocInsert e.id e h.elements →
        hx.countTag t ≤
          h.countTag t + (if e.base.hat_type = t then 1 else 0) := by
    intro t hx hxe
    unfold Hat.countTag Hat.elementsL
    rw [hxe]
    have hb := length_filter_assocInsert (fun x => x.base.hat_type = t) e.id e h.elements
    simpa using hb
  refine ⟨?_, ?_, huniqiff, ?_, ?_, ?_, ?_⟩
  · intro hp hge
    have hcap : h.can_add_pets = false := by
      unfold Hat.can_add_pets
      simp only [decide_eq_false_iff_not]
      omega
    simp [Hat.add_element, hp, hcap]
  · intro hu hhas
    simp [Hat.add_element, hu, hhas]
  · intro hpet huniq
    have g1 : (e.is_pet && !h.can_add_pets) = false := by
      cases hp : e.is_pet
      · simp
      · have : h.can_add_pets = true := by
          unfold Hat.can_add_pets
          simp only [decide_eq_true_eq]
          exact hpet hp
        simp [this]
    have g2 : (e.is_unique && h.has_element e.base.hat_type) = false := by
      cases hu : e.is_unique
      · simp
      · simp [huniq hu]
    simp [Hat.add_element, g1, g2]
  · intro hle
    by_cases g1 : (e.is_pet && !h.can_add_pets) = true
    · simpa [Hat.add_element, g1] using hle
    · by_cases g2 : (e.is_unique && h.has_element e.base.hat_type) = true
      · simpa [Hat.add_element, g1, g2] using hle
      · have hx : (h.add_element e).elements = assocInsert e.id e h.elements := by
          simp [Hat.add_element, g1, g2]
        have hb := hinsert_pets (h.add_element e) hx
        cases hp : e.is_pet
        · simp only [hp, if_neg] at hb
          simp only [Bool.false_eq_true, if_false] at hb
          omega
        · have hcap : h.can_add_pets = true := by
            cases hcc : h.can_add_pets
            · simp [hp, hcc] at g1
            · rfl
          have hlt : h.pets_amount < MAX_PETS := by
            simpa [Hat.can_add_pets] using hcap
          simp only [hp, if_pos] at hb
          omega
  · intro hle
    by_cases g1 : (e.is_pet && !h.can_add_pets) = true
    · simpa [Hat.add_element, g1] using hle
    · by_cases g2 : (e.is_unique && h.has_element e.base.hat_type) = true
      · simpa [Hat.add_element, g1, g2] using hle
      · have hx : (h.add_element e).elements = assocInsert e.id e h.elements := by
          simp [Hat.add_element, g1, g2]
        have hb := hinsert_tag .Wearable (h.add_element e) hx
        by_cases ht : e.base.hat_type = HatType.Wearable
        · have hu : e.is_unique = true := huniqiff.mpr (Or.inl ht)
          have hhas : h.has_element e.base.hat_type = false := by
            cases hcc : h.has_element e.base.hat_type
            · rfl
            · simp [hu, hcc] at g2
          have hz : h.countTag .Wearable = 0 :=
            countTag_eq_zero_of_not_has h _ (ht ▸ hhas)
          rw [if_pos ht] at hb
          omega
        · rw [if_neg ht] at hb
          omega
  · intro hle
    by_cases g1 : (e.is_pet && !h.can_add_pets) = true
    · simpa [Hat.add_element, g1] using hle
    · by_cases g2 : (e.is_unique && h.has_element e.base.hat_type) = true
      · simpa [Hat.add_element, g1, g2] using hle
      · have hx : (h.add_element e).elements = assocInsert e.id e h.elements := by
          simp [Hat.add_element, g1, g2]
        have hb := hinsert_tag .Wings (h.add_element e) hx
        by_cases ht : e.base.hat_type = HatType.Wings
        · have hu : e.is_unique = true := huniqiff.mpr (Or.inr ht)
          have hhas : h.has_element e.base.hat_type = false := by
            cases hcc : h.has_element e.base.hat_type
            · rfl
            · simp [hu, hcc] at g2
          have hz : h.countTag .Wings = 0 :=
            countTag_eq_zero_of_not_has h _ (ht ▸ hhas)
          rw [if_pos ht] at hb
          omega
        · rw [if_neg ht] at hb
          omega

/-- Concrete empty hat used by witnesses. -/
def c3Hat : Hat := Hat.new [] "w" 0

/-- Concrete wearable element used by witnesses. -/
def c3Elem : HatElementR := mkElemC (.Wearable WearableData.default) 7

/-- Witness for C3 at an empty hat and a well-formed wearable
element. -/
theorem C3_add_element_witness :
    c3Elem.tagOk ∧
    ((c3Elem.is_pet = true → MAX_PETS ≤ c3Hat.pets_amount → c3Hat.add_element c3Elem = c3Hat) ∧
      (c3Elem.is_unique = true → c3Hat.has_element c3Elem.base.hat_type = true →
        c3Hat.add_element c3Elem = c3Hat) ∧
      (c3Elem.is_unique = true ↔
        (c3Elem.base.hat_type = HatType.Wearable ∨ c3Elem.base.hat_type = HatType.Wings)) ∧
      ((c3Elem.is_pet = true → c3Hat.pets_amount < MAX_PETS) →
        (c3Elem.is_unique = true → c3Hat.has_element c3Elem.base.hat_type = false) →
        (c3Hat.add_element c3Elem).elements = assocInsert c3Elem.id c3Elem c3Hat.elements) ∧
      (c3Hat.pets_amount ≤ MAX_PETS → (c3Hat.add_element c3Elem).pets_amount ≤ MAX_PETS) ∧
      (c3Hat.countTag .Wearable ≤ 1 → (c3Hat.add_element c3Elem).countTag .Wearable ≤ 1) ∧
      (c3Hat.countTag .Wings ≤ 1 → (c3Hat.add_element c3Elem).countTag .Wings ≤ 1)) :=
  ⟨by decide, C3_add_element c3Hat c3Elem (by decide)⟩

section PathLemmas

/-- Suffix membership for `tailsL`. -/
lemma mem_tailsL (r x : List String) : x ∈ tailsL r ↔ x <:+ r := by
  induction r with
  | nil =>
    simp [tailsL, List.suffix_nil]
  | cons a rest ih =>
    simp only [tailsL, List.mem_cons, ih, List.suffix_cons_iff]

/-- `ancestors` lists exactly the prefixes of a path. -/
lemma mem_ancestors (p a : PathB) : a ∈ ancestors p ↔ a <+: p := by
  unfold ancestors
  rw [List.mem_map]
  constructor
  · rintro ⟨x, hx, rfl⟩
    rw [mem_tailsL] at hx
    exact List.reverse_suffix.mp (by simpa using hx)
  · intro hp
    refine ⟨a.reverse, ?_, by simp⟩
    rw [mem_tailsL]
    exact List.reverse_suffix.mpr hp

/-- `ancestors` always starts with the path itself. -/
lemma ancestors_head (p : PathB) : ancestors p = p :: (ancestors p).drop 1 := by
  unfold ancestors
  cases hr : p.reverse with
  | nil =>
    have : p = [] := by simpa using congrArg List.reverse hr
    subst this
    rfl
  | cons a rest =>
    have hp : p = rest.reverse ++ [a] := by
      simpa using congrArg List.reverse hr
    simp [tailsL, hp]

/-- Appending one component pushes one new entry onto `ancestors`. -/
lemma ancestors_concat (l : PathB) (c : String) :
    ancestors (l ++ [c]) = (l ++ [c]) :: ancestors l := by
  unfold ancestors
  have h1 : (l ++ [c]).reverse = c :: l.reverse := by simp
  rw [h1]
  simp [tailsL]

/-- The component/ancestor pair stream scanned by the `local_path`
loop, peeled one step for a path ending in component `c`. -/
lemma zip_ancestors_concat (l : PathB) (c : String) :
    (l ++ [c]).reverse.zip ((ancestors (l ++ [c])).drop 1) =
      (c, l) :: l.reverse.zip ((ancestors l).drop 1) := by
  rw [ancestors_concat]
  have h1 : (l ++ [c]).reverse = c :: l.reverse := by simp
  rw [h1]
  simp only [List.drop_succ_cons, List.drop_zero]
  conv_lhs => rw [ancestors_head l]
  rfl

/-- The `local_path` loop collects exactly the relative part (in
reverse) when the scanned path lies under the target directory. -/
lemma collectParts_append (dir : PathB) :
    ∀ rel : PathB, rel ≠ [] →
      collectParts dir ((dir ++ rel).reverse.zip ((ancestors (dir ++ rel)).drop 1)) =
        rel.reverse := by
  intro rel
  induction rel using List.reverseRecOn with
  | nil => intro hne; exact absurd rfl hne
  | append_singleton r c ih =>
    intro _
    rw [← List.append_assoc, zip_ancestors_concat (dir ++ r) c]
    by_cases hr : r = []
    · subst hr
      simp [collectParts]
    · have hne2 : ¬(dir ++ r = dir) := by simp [hr]
      unfold collectParts
      rw [if_neg hne2, ih hr]
      simp

/-- `local_path` on a path strictly under the directory returns the
relative remainder. -/
lemma localPath_under (dir rel : PathB) (hne : rel ≠ []) :
    localPath (dir ++ rel) dir = .ok rel := by
  have hin : (decide (dir = ([] : PathB)) ||
      (ancestors (dir ++ rel)).any (fun a => dir = a)) = true := by
    rw [Bool.or_eq_true]
    right
    rw [List.any_eq_true]
    exact ⟨dir, (mem_ancestors _ _).mpr (List.prefix_append dir rel), by simp⟩
  unfold localPath
  simp only [hin, Bool.not_true, Bool.false_eq_true, if_false]
  rw [collectParts_append dir rel hne]
  simp

/-- `local_path` rejects a path not under a nonempty directory. -/
lemma localPath_escape (p dir : PathB) (h1 : dir ≠ []) (h2 : ¬ dir <+: p) :
    localPath p dir = .error .PathNotInDir := by
  have hin : (decide (dir = ([] : PathB)) ||
      (ancestors p).any (fun a => dir = a)) = false := by
    rw [Bool.or_eq_false_iff]
    refine ⟨by simpa using h1, ?_⟩
    rw [List.any_eq_false]
    intro a ha
    simp only [decide_eq_true_eq]
    intro hda
    exact h2 (hda ▸ (mem_ancestors _ _).mp ha)
  unfold localPath
  simp only [hin, Bool.not_false, if_true]

end PathLemmas

/-- `local_path` succeeds whenever the directory is an ancestor. -/
lemma localPath_ok_of_prefix (p dir : PathB) (hp : dir <+: p) :
    ∃ q, localPath p dir = .ok q := by
  have hin : (decide (dir = ([] : PathB)) ||
      (ancestors p).any (fun a => dir = a)) = true := by
    rw [Bool.or_eq_true]
    right
    rw [List.any_eq_true]
    exact ⟨dir, (mem_ancestors _ _).mpr hp, by simp⟩
  unfold localPath
  simp only [hin, Bool.not_true, Bool.false_eq_true, if_false]
  exact ⟨_, rfl⟩

/-- Archive-mode `gen_hat_data` synthesises `images/<id>.png` for
every element, unconditionally. -/
lemma genElems_file (root : PathB) (es : List HatElementR) :
    genElems root .File es =
      .ok (es.map (fun e =>
        e.data.withImagePath (some (["images", toString e.id ++ ".png"] : PathB)))) := by
  induction es with
  | nil => rfl
  | cons e rest ih => simp [genElems, ih, HatElementData.withImagePath]

/-- Folder-mode `gen_hat_data` on elements whose images all live
strictly under the root: succeeds and relativises each image path. -/
lemma genElems_folder_ok (root : PathB) : ∀ es : List HatElementR,
    (∀ e ∈ es, ∃ rel : PathB, rel ≠ [] ∧ e.bitmap.path = some (root ++ rel)) →
    ∃ ds, genElems root .Folder es = .ok ds ∧
      List.Forall₂ (fun (e : HatElementR) (d : HatElementData) =>
        ∃ rel : PathB, rel ≠ [] ∧ e.bitmap.path = some (root ++ rel) ∧
          localPath (root ++ rel) root = .ok rel ∧
          d = e.data.withImagePath (some rel)) es ds := by
  intro es
  induction es with
  | nil => exact fun _ => ⟨[], rfl, List.Forall₂.nil⟩
  | cons e rest ih =>
    intro hall
    obtain ⟨rel, hrne, hpath⟩ := hall e (List.mem_cons_self e rest)
    obtain ⟨ds, hds, hfa⟩ := ih (fun x hx => hall x (List.mem_cons_of_mem e hx))
    refine ⟨(e.data.withImagePath (some rel)) :: ds, ?_, ?_⟩
    · simp [genElems, hpath, localPath_under root rel hrne, hds,
        HatElementData.withImagePath]
    · exact List.Forall₂.cons ⟨rel, hrne, hpath, localPath_under root rel hrne, rfl⟩ hfa

/-- Folder-mode `gen_hat_data` hits the path-escape condition as soon
as some element's image is not under the (nonempty) root. -/
lemma genElems_folder_escape (root : PathB) (hroot : root ≠ []) :
    ∀ es : List HatElementR,
    (∀ e ∈ es, ∃ ip, e.bitmap.path = some ip) →
    (∃ e ∈ es, ∀ ip, e.bitmap.path = some ip → ¬ root <+: ip) →
    genElems root .Folder es = .error .pathEscapesRoot := by
  intro es
  induction es with
  | nil =>
    rintro _ ⟨e, he, _⟩
    exact absurd he (List.not_mem_nil e)
  | cons e0 rest ih =>
    rintro hall ⟨e, he, hesc⟩
    obtain ⟨ip0, hip0⟩ := hall e0 (List.mem_cons_self e0 rest)
    by_cases hu : root <+: ip0
    · have hrec : genElems root .Folder rest = .error .pathEscapesRoot := by
        apply ih (fun x hx => hall x (List.mem_cons_of_mem e0 hx))
        rcases List.mem_cons.mp he with rfl | hmem
        · exact absurd hu (hesc ip0 hip0)
        · exact ⟨e, hmem, hesc⟩
      obtain ⟨q, hq⟩ := localPath_ok_of_prefix ip0 root hu
      simp [genElems, hip0, hq, hrec]
    · have hfail := localPath_escape ip0 root hroot hu
      simp [genElems, hip0, hfail]

/-- C6: folder-mode `gen_hat_data` persists each element's image path
relativised to the aggregate's root, failing with the path-escape
condition (a `todo!()` panic in the source, surfaced loudly) when some
image is not under the root; archive-mode always persists
`images/<elementId>.png`. -/
theorem C6_gen_hat_data (h : Hat) :
    ((∀ e ∈ h.elementsL, ∃ rel : PathB, rel ≠ [] ∧ e.bitmap.path = some (h.path ++ rel)) →
      ∃ data, h.gen_hat_data .Folder = .ok data ∧ data.name = h.name ∧
        List.Forall₂ (fun (e : HatElementR) (d : HatElementData) =>
          ∃ rel : PathB, rel ≠ [] ∧ e.bitmap.path = some (h.path ++ rel) ∧
            localPath (h.path ++ rel) h.path = .ok rel ∧
            d = e.data.withImagePath (some rel)) h.elementsL data.elements) ∧
    (h.path ≠ [] →
      (∀ e ∈ h.elementsL, ∃ ip, e.bitmap.path = some ip) →
      (∃ e ∈ h.elementsL, ∀ ip, e.bitmap.path = some ip → ¬ h.path <+: ip) →
      h.gen_hat_data .Folder = .error .pathEscapesRoot) ∧
    (∃ data, h.gen_hat_data .File = .ok data ∧ data.name = h.name ∧
      data.elements = h.elementsL.map
        (fun e => e.data.withImagePath
          (some (["images", toString e.id ++ ".png"] : PathB)))) := by
  refine ⟨?_, ?_, ?_⟩
  · intro hall
    obtain ⟨ds, hds, hfa⟩ := genElems_folder_ok h.path h.elementsL hall
    exact ⟨{ elements := ds, name := h.name },
      by unfold Hat.gen_hat_data; rw [hds]; rfl, rfl, hfa⟩
  · intro h1 h2 h3
    have hx := genElems_folder_escape h.path h1 h.elementsL h2 h3
    unfold Hat.gen_hat_data
    rw [hx]
    rfl
  · refine ⟨{ elements := _, name := h.name }, ?_, rfl, rfl⟩
    unfold Hat.gen_hat_data
    rw [genElems_file]
    rfl

/-- Concrete element whose image lives under root `r`. -/
def c6Elem : HatElementR :=
  { data := .Wearable WearableData.default
    texture := { width := 32, height := 32, path := some ["r", "images", "a.png"] }
    bitmap := { path := some ["r", "images", "a.png"], content := ⟨32, 32, 0⟩ }
    id := 11 }

/-- Concrete one-element hat rooted at `r`. -/
def c6Hat : Hat :=
  { elements := [(11, c6Elem)]
    path := ["r"]
    name := "c6"
    name_set_by_user := false
    id := 0 }

/-- Witness for C6 at `c6Hat`: the folder-mode and archive-mode
conclusions at a concrete aggregate. -/
theorem C6_gen_hat_data_witness :
    (∃ data, c6Hat.gen_hat_data .Folder = .ok data ∧ data.name = c6Hat.name ∧
      List.Forall₂ (fun (e : HatElementR) (d : HatElementData) =>
        ∃ rel : PathB, rel ≠ [] ∧ e.bitmap.path = some (c6Hat.path ++ rel) ∧
          localPath (c6Hat.path ++ rel) c6Hat.path = .ok rel ∧
          d = e.data.withImagePath (some rel)) c6Hat.elementsL data.elements) ∧
    (∃ data, c6Hat.gen_hat_data .File = .ok data ∧ data.name = c6Hat.name ∧
      data.elements = c6Hat.elementsL.map
        (fun e => e.data.withImagePath
          (some (["images", toString e.id ++ ".png"] : PathB)))) :=
  ⟨(C6_gen_hat_data c6Hat).1
      (by
        intro e he
        have hee : e = c6Elem := by
          simpa [c6Hat, Hat.elementsL] using he
        subst hee
        exact ⟨["images", "a.png"], by decide, by decide⟩),
    (C6_gen_hat_data c6Hat).2.2⟩

/-- The integrity element loop succeeds iff every referenced image and
script path (resolved against the root) exists. -/
lemma checkElems_ok_iff (root : PathB) (fs : FS) (es : List HatElementR) :
    checkElems root fs es = .ok () ↔
      ∀ e ∈ es,
        (∀ p, e.base.local_image_path = some p → fs.existsP (root ++ p) = true) ∧
        (∀ p, e.base.local_script_path = some p → fs.existsP (root ++ p) = true) := by
  induction es with
  | nil => simp [checkElems]
  | cons e rest ih =>
    simp only [checkElems, List.mem_cons]
    cases himg : e.base.local_image_path with
    | some p =>
      by_cases hex : fs.existsP (root ++ p) = true
      · cases hscr : e.base.local_script_path with
        | some q =>
          by_cases hex2 : fs.existsP (root ++ q) = true
          · simp [hex, hex2, ih, himg, hscr]
          · simp only [hex, hex2, Bool.not_true, Bool.not_false]
            simp only [Bool.not_eq_true] at hex2
            simp [hex2, himg, hscr]
        | none => simp [hex, ih, himg, hscr]
      · simp only [Bool.not_eq_true] at hex
        simp [hex, himg]
    | none =>
      cases hscr : e.base.local_script_path with
      | some q =>
        by_cases hex2 : fs.existsP (root ++ q) = true
        · simp [hex2, ih, himg, hscr]
        · simp only [Bool.not_eq_true] at hex2
          simp [hex2, himg, hscr]
      | none => simp [ih, himg, hscr]

/-- A failing integrity loop reports a missing path that is one of the
resolved referenced paths and is indeed absent. -/
lemma checkElems_error_names (root : PathB) (fs : FS) :
    ∀ (es : List HatElementR) (p : PathB),
    checkElems root fs es = .error (.missing p) →
      fs.existsP p = false ∧
      ∃ e ∈ es, ∃ q,
        (e.base.local_image_path = some q ∨ e.base.local_script_path = some q) ∧
        p = root ++ q := by
  intro es
  induction es with
  | nil => intro p hp; simp [checkElems] at hp
  | cons e rest ih =>
    intro p hp
    simp only [checkElems] at hp
    cases himg : e.base.local_image_path with
    | some q =>
      by_cases hex : fs.existsP (root ++ q) = true
      · rw [himg] at hp
        simp only [hex, Bool.not_true, Bool.false_eq_true, if_false] at hp
        cases hscr : e.base.local_script_path with
        | some r =>
          by_cases hex2 : fs.existsP (root ++ r) = true
          · rw [hscr] at hp
            simp only [hex2, Bool.not_true, Bool.false_eq_true, if_false] at hp
            obtain ⟨h1, e2, he2, hq⟩ := ih p hp
            exact ⟨h1, e2, List.mem_cons_of_mem e he2, hq⟩
          · rw [hscr] at hp
            simp only [Bool.not_eq_true] at hex2
            simp only [hex2, Bool.not_false, if_true, Except.error.injEq,
              IntegrityError.missing.injEq] at hp
            subst hp
            exact ⟨hex2, e, List.mem_cons_self e rest, r, Or.inr hscr, rfl⟩
        | none =>
          rw [hscr] at hp
          simp only at hp
          obtain ⟨h1, e2, he2, hq⟩ := ih p hp
          exact ⟨h1, e2, List.mem_cons_of_mem e he2, hq⟩
      · rw [himg] at hp
        simp only [Bool.not_eq_true] at hex
        simp only [hex, Bool.not_false, if_true, Except.error.injEq,
          IntegrityError.missing.injEq] at hp
        subst hp
        exact ⟨hex, e, List.mem_cons_self e rest, q, Or.inl himg, rfl⟩
    | none =>
      rw [himg] at hp
      simp only at hp
      cases hscr : e.base.local_script_path with
      | some r =>
        by_cases hex2 : fs.existsP (root ++ r) = true
        · rw [hscr] at hp
          simp only [hex2, Bool.not_true, Bool.false_eq_true, if_false] at hp
          obtain ⟨h1, e2, he2, hq⟩ := ih p hp
          exact ⟨h1, e2, List.mem_cons_of_mem e he2, hq⟩
        · rw [hscr] at hp
          simp only [Bool.not_eq_true] at hex2
          simp only [hex2, Bool.not_false, if_true, Except.error.injEq,
            IntegrityError.missing.injEq] at hp
          subst hp
          exact ⟨hex2, e, List.mem_cons_self e rest, r, Or.inr hscr, rfl⟩
      | none =>
        rw [hscr] at hp
        simp only at hp
        obtain ⟨h1, e2, he2, hq⟩ := ih p hp
        exact ⟨h1, e2, List.mem_cons_of_mem e he2, hq⟩

/-- C7: `check_files_integrity` succeeds iff the root directory and
every element-referenced image/script path (resolved against the root)
exist, fails with a missing-file error naming an absent referenced
path otherwise, and both save and export abort on its failure with a
descriptive error while leaving the filesystem untouched. -/
theorem C7_check_files_integrity (h : Hat) (fs : FS) :
    (h.check_files_integrity fs = .ok () ↔
      (fs.existsP h.path = true ∧
        ∀ e ∈ h.elementsL,
          (∀ p, e.base.local_image_path = some p → fs.existsP (h.path ++ p) = true) ∧
          (∀ p, e.base.local_script_path = some p → fs.existsP (h.path ++ p) = true))) ∧
    (∀ p, h.check_files_integrity fs = .error (.missing p) →
      fs.existsP p = false ∧
      (p = h.path ∨ ∃ e ∈ h.elementsL, ∃ q,
        (e.base.local_image_path = some q ∨ e.base.local_script_path = some q) ∧
        p = h.path ++ q)) ∧
    (∀ err suffix b, h.check_files_integrity fs = .error err →
      h.save fs suffix b = (fs, .error (.integrity err))) ∧
    (∀ err dest suffix b, h.check_files_integrity fs = .error err →
      h.export_to_file fs dest suffix b = (fs, .error (.integrity err))) := by
  refine ⟨?_, ?_, ?_, ?_⟩
  · by_cases hroot : fs.existsP h.path = true
    · simp only [Hat.check_files_integrity, hroot, Bool.not_true, Bool.false_eq_true,
        if_false]
      rw [checkElems_ok_iff]
      simp [hroot]
    · simp only [Bool.not_eq_true] at hroot
      simp [Hat.check_files_integrity, hroot]
  · intro p hp
    by_cases hroot : fs.existsP h.path = true
    · simp only [Hat.check_files_integrity, hroot, Bool.not_true, Bool.false_eq_true,
        if_false] at hp
      obtain ⟨h1, e2, he2, hq⟩ := checkElems_error_names h.path fs h.elementsL p hp
      exact ⟨h1, Or.inr ⟨e2, he2, hq⟩⟩
    · simp only [Bool.not_eq_true] at hroot
      simp only [Hat.check_files_integrity, hroot, Bool.not_false, if_true,
        Except.error.injEq, IntegrityError.missing.injEq] at hp
      subst hp
      exact ⟨hroot, Or.inl rfl⟩
  · intro err suffix b herr
    simp [Hat.save, herr]
  · intro err dest suffix b herr
    simp [Hat.export_to_file, herr]

/-- A one-element hat whose referenced image file is absent. -/
def c7Elem : HatElementR :=
  { data := .Wearable
      { WearableData.default with
        base :=
          { hat_type := .Wearable
            frame_size := IVec2.splat 32
            local_image_path := some ["images", "missing.png"]
            local_script_path := none } }
    texture := { width := 32, height := 32, path := none }
    bitmap := { path := none, content := ⟨32, 32, 0⟩ }
    id := 3 }

/-- The hat for the C7 witness. -/
def c7Hat : Hat :=
  { elements := [(3, c7Elem)]
    path := ["r"]
    name := "c7"
    name_set_by_user := false
    id := 0 }

/-- A filesystem holding only the root directory. -/
def c7Fs : FS := fun q => if q = (["r"] : PathB) then some .dir else none

/-- Witness for C7 at `c7Hat`/`c7Fs`: the reported missing path is the
absent referenced image, and save/export abort leaving the filesystem
unchanged. -/
theorem C7_check_files_integrity_witness :
    (c7Fs.existsP ["r", "images", "missing.png"] = false ∧
      ((["r", "images", "missing.png"] : PathB) = c7Hat.path ∨
        ∃ e ∈ c7Hat.elementsL, ∃ q,
          (e.base.local_image_path = some q ∨ e.base.local_script_path = some q) ∧
          (["r", "images", "missing.png"] : PathB) = c7Hat.path ++ q)) ∧
    c7Hat.save c7Fs "u" false =
      (c7Fs, .error (.integrity (.missing ["r", "images", "missing.png"]))) ∧
    c7Hat.export_to_file c7Fs ["out.hatspp"] "u" false =
      (c7Fs, .error (.integrity (.missing ["r", "images", "missing.png"]))) :=
  ⟨(C7_check_files_integrity c7Hat c7Fs).2.1 _ (by rfl),
    (C7_check_files_integrity c7Hat c7Fs).2.2.1 _ "u" false (by rfl),
    (C7_check_files_integrity c7Hat c7Fs).2.2.2 _ ["out.hatspp"] "u" false (by rfl)⟩

/-- `OsString::push` on the final component never yields the original
path when the pushed text is nonempty. -/
lemma appendToLast_ne (p : PathB) (s : String) (hs : s ≠ "") : appendToLast p s ≠ p := by
  induction p with
  | nil => simp [appendToLast]
  | cons a rest ih =>
    cases rest with
    | nil =>
      simp only [appendToLast, ne_eq, List.cons.injEq, and_true]
      intro hcon
      have hlen := congrArg String.length hcon
      simp only [String.length_append] at hlen
      have hzero : s.length = 0 := by omega
      have : s = "" := by
        cases s with
        | mk data =>
          cases data with
          | nil => rfl
          | cons c cs => simp [String.length, List.length] at hzero
      exact hs this
    | cons b rest2 =>
      simp only [appendToLast, ne_eq, List.cons.injEq, true_and]
      exact ih

/-- The uuid-suffixed sibling path differs from its base path. -/
lemma uuidSibling_ne (p : PathB) (s : String) : uuidSibling p s ≠ p := by
  apply appendToLast_ne
  intro hcon
  have h1 := congrArg String.length hcon
  rw [String.length_append] at h1
  have h2 : ("_" : String).length = 1 := rfl
  have h3 : ("" : String).length = 0 := rfl
  omega

/-- Insertion at a different path does not change existence. -/
lemma FS.existsP_insertP_ne (fs : FS) (p q : PathB) (v : FileData) (h : q ≠ p) :
    (fs.insertP p v).existsP q = fs.existsP q := by
  simp [FS.existsP, FS.insertP, h]

/-- Erasing what was just (twice) created at the same path restores
the original map at every point. -/
lemma eraseP_insertP_insertP (fs : FS) (t : PathB) (v1 v2 : FileData) :
    ((fs.insertP t v1).insertP t v2).eraseP t = fs.eraseP t := by
  funext q
  by_cases hq : q = t <;> simp [FS.eraseP, FS.insertP, hq]

/-- Renaming the freshly written temp file over the destination yields
the original map with the temp entry gone and the destination holding
the written content. -/
lemma renameP_after_write (fs : FS) (t d : PathB) (v1 v2 : FileData) (htd : t ≠ d) :
    (((fs.insertP t v1).insertP t v2).eraseP d).renameP t d =
      (fs.eraseP t).insertP d v2 := by
  funext q
  by_cases hqd : q = d
  · subst hqd
    simp [FS.renameP, FS.eraseP, FS.insertP, htd, Ne.symm htd]
  · by_cases hqt : q = t
    · subst hqt
      simp [FS.renameP, FS.eraseP, FS.insertP, hqd]
    · simp [FS.renameP, FS.eraseP, FS.insertP, hqd, hqt]

/-- As `renameP_after_write`, without the prior deletion of an (absent)
destination. -/
lemma renameP_after_write_nodelete (fs : FS) (t d : PathB) (v1 v2 : FileData)
    (htd : t ≠ d) :
    ((fs.insertP t v1).insertP t v2).renameP t d = (fs.eraseP t).insertP d v2 := by
  funext q
  by_cases hqd : q = d
  · subst hqd
    simp [FS.renameP, FS.eraseP, FS.insertP, htd, Ne.symm htd]
  · by_cases hqt : q = t
    · subst hqt
      simp [FS.renameP, FS.eraseP, FS.insertP, hqd]
    · simp [FS.renameP, FS.eraseP, FS.insertP, hqd, hqt]

/-- C2: the atomic-write discipline of save and export.  With the
destination present and the deletion oracle failing, the temp file
(destination + `_` + suffix) is removed, the error is propagated, and
the resulting filesystem is the original minus the temp entry (so the
destination keeps its old content and no temp file remains); with the
deletion succeeding, or no destination present, the temp file is
renamed over the destination. -/
theorem C2_atomic_write (h : Hat) (fs : FS) (suffix : String) (data : HatData)
    (hint : h.check_files_integrity fs = .ok ())
    (hgen : h.gen_hat_data .Folder = .ok data) :
    ((fs.existsP (h.path ++ ["data.json"]) = true →
        h.save fs suffix true =
          (fs.eraseP (uuidSibling (h.path ++ ["data.json"]) suffix), .error .removeDest)) ∧
      ((fs.eraseP (uuidSibling (h.path ++ ["data.json"]) suffix)) (h.path ++ ["data.json"]) =
        fs (h.path ++ ["data.json"]) ∧
        (fs.eraseP (uuidSibling (h.path ++ ["data.json"]) suffix))
          (uuidSibling (h.path ++ ["data.json"]) suffix) = none) ∧
      (h.save fs suffix false =
        ((fs.eraseP (uuidSibling (h.path ++ ["data.json"]) suffix)).insertP
            (h.path ++ ["data.json"]) (.hatJson data),
          .ok ())) ∧
      (fs.existsP (h.path ++ ["data.json"]) = false →
        h.save fs suffix true =
          ((fs.eraseP (uuidSibling (h.path ++ ["data.json"]) suffix)).insertP
              (h.path ++ ["data.json"]) (.hatJson data),
            .ok ()))) ∧
    (∀ dest : PathB,
      (fs.existsP dest = true →
        h.export_to_file fs dest suffix true =
          (fs.eraseP (uuidSibling dest suffix), .error .removeDest)) ∧
      (∃ out : FileData,
        h.export_to_file fs dest suffix false =
          ((fs.eraseP (uuidSibling dest suffix)).insertP dest out, .ok ())) ∧
      (fs.existsP dest = false →
        ∃ out : FileData,
          h.export_to_file fs dest suffix true =
            ((fs.eraseP (uuidSibling dest suffix)).insertP dest out, .ok ()))) := by
  have htd : uuidSibling (h.path ++ ["data.json"]) suffix ≠ h.path ++ (["data.json"] : PathB) :=
    uuidSibling_ne _ _
  have hsave : ∀ b : Bool, h.save fs suffix b =
      (let dest : PathB := h.path ++ ["data.json"]
        let tmp : PathB := uuidSibling dest suffix
        let fs2 : FS := (fs.insertP tmp (.raw "")).insertP tmp (.hatJson data)
        if fs2.existsP dest then
          if b then (fs2.eraseP tmp, .error .removeDest)
          else ((fs2.eraseP dest).renameP tmp dest, .ok ())
        else (fs2.renameP tmp dest, .ok ())) := by
    intro b
    unfold Hat.save
    rw [hint, hgen]
  have hexfs2 : ∀ v1 v2 : FileData,
      ((fs.insertP (uuidSibling (h.path ++ ["data.json"]) suffix) v1).insertP
          (uuidSibling (h.path ++ ["data.json"]) suffix) v2).existsP
        (h.path ++ ["data.json"]) = fs.existsP (h.path ++ ["data.json"]) := by
    intro v1 v2
    rw [FS.existsP_insertP_ne _ _ _ _ (Ne.symm htd), FS.existsP_insertP_ne _ _ _ _ (Ne.symm htd)]
  refine ⟨⟨?_, ⟨?_, ?_⟩, ?_, ?_⟩, ?_⟩
  · intro hdest
    rw [hsave true]
    simp only [hexfs2, hdest, if_true]
    rw [eraseP_insertP_insertP]
  · simp [FS.eraseP, Ne.symm htd]
  · simp [FS.eraseP]
  · rw [hsave false]
    by_cases hdest : fs.existsP (h.path ++ ["data.json"]) = true
    · simp only [hexfs2, hdest, if_true, Bool.false_eq_true, if_false]
      rw [renameP_after_write _ _ _ _ _ htd]
    · simp only [Bool.not_eq_true] at hdest
      simp only [hexfs2, hdest, Bool.false_eq_true, if_false]
      rw [renameP_after_write_nodelete _ _ _ _ _ htd]
  · intro hdest
    rw [hsave true]
    simp only [hexfs2, hdest, Bool.false_eq_true, if_false]
    rw [renameP_after_write_nodelete _ _ _ _ _ htd]
  · intro dest
    have htd2 : uuidSibling dest suffix ≠ dest := uuidSibling_ne _ _
    obtain ⟨dataE, hgenE⟩ : ∃ dataE, h.gen_hat_data .File = .ok dataE :=
      ⟨_, by unfold Hat.gen_hat_data; rw [genElems_file]; rfl⟩
    have hexp : ∀ b : Bool, h.export_to_file fs dest suffix b =
        (let tmp : PathB := uuidSibling dest suffix
          let images := (dataE.elements.zip h.elementsL).map
            (fun p => (p.1.base.local_image_path.getD ([] : PathB), p.2.bitmap.content))
          let fs2 : FS := (fs.insertP tmp (.raw "")).insertP tmp (.archive dataE images)
          if fs2.existsP dest then
            if b then (fs2.eraseP tmp, .error .removeDest)
            else ((fs2.eraseP dest).renameP tmp dest, .ok ())
          else (fs2.renameP tmp dest, .ok ())) := by
      intro b
      unfold Hat.export_to_file
      rw [hint, hgenE]
    have hexfs2E : ∀ v1 v2 : FileData,
        ((fs.insertP (uuidSibling dest suffix) v1).insertP
            (uuidSibling dest suffix) v2).existsP dest = fs.existsP dest := by
      intro v1 v2
      rw [FS.existsP_insertP_ne _ _ _ _ (Ne.symm htd2),
        FS.existsP_insertP_ne _ _ _ _ (Ne.symm htd2)]
    refine ⟨?_, ?_, ?_⟩
    · intro hdest
      rw [hexp true]
      simp only [hexfs2E, hdest, if_true]
      rw [eraseP_insertP_insertP]
    · refine ⟨FileData.archive dataE ((dataE.elements.zip h.elementsL).map
          (fun p => (p.1.base.local_image_path.getD ([] : PathB), p.2.bitmap.content))), ?_⟩
      rw [hexp false]
      by_cases hdest : fs.existsP dest = true
      · simp only [hexfs2E, hdest, if_true, Bool.false_eq_true, if_false]
        rw [renameP_after_write _ _ _ _ _ htd2]
      · simp only [Bool.not_eq_true] at hdest
        simp only [hexfs2E, hdest, Bool.false_eq_true, if_false]
        rw [renameP_after_write_nodelete _ _ _ _ _ htd2]
    · intro hdest
      refine ⟨FileData.archive dataE ((dataE.elements.zip h.elementsL).map
          (fun p => (p.1.base.local_image_path.getD ([] : PathB), p.2.bitmap.content))), ?_⟩
      rw [hexp true]
      simp only [hexfs2E, hdest, Bool.false_eq_true, if_false]
      rw [renameP_after_write_nodelete _ _ _ _ _ htd2]

/-- Empty hat rooted at `r` for the C2 witness. -/
def c2Hat : Hat := Hat.new ["r"] "c2" 0

/-- Filesystem with the root directory and an old `data.json` at the
destination. -/
def c2Fs : FS := fun q =>
  if q = (["r"] : PathB) then some .dir
  else if q = (["r", "data.json"] : PathB) then some (.hatJson (HatData.new "old"))
  else none

/-- Witness for C2 at `c2Hat`/`c2Fs` with suffix `u`. -/
theorem C2_atomic_write_witness :
    c2Hat.check_files_integrity c2Fs = .ok () ∧
    c2Hat.gen_hat_data .Folder = .ok (HatData.new "c2") ∧
    (((c2Fs.existsP (c2Hat.path ++ ["data.json"]) = true →
        c2Hat.save c2Fs "u" true =
          (c2Fs.eraseP (uuidSibling (c2Hat.path ++ ["data.json"]) "u"), .error .removeDest)) ∧
      ((c2Fs.eraseP (uuidSibling (c2Hat.path ++ ["data.json"]) "u")) (c2Hat.path ++ ["data.json"]) =
        c2Fs (c2Hat.path ++ ["data.json"]) ∧
        (c2Fs.eraseP (uuidSibling (c2Hat.path ++ ["data.json"]) "u"))
          (uuidSibling (c2Hat.path ++ ["data.json"]) "u") = none) ∧
      (c2Hat.save c2Fs "u" false =
        ((c2Fs.eraseP (uuidSibling (c2Hat.path ++ ["data.json"]) "u")).insertP
            (c2Hat.path ++ ["data.json"]) (.hatJson (HatData.new "c2")),
          .ok ())) ∧
      (c2Fs.existsP (c2Hat.path ++ ["data.json"]) = false →
        c2Hat.save c2Fs "u" true =
          ((c2Fs.eraseP (uuidSibling (c2Hat.path ++ ["data.json"]) "u")).insertP
              (c2Hat.path ++ ["data.json"]) (.hatJson (HatData.new "c2")),
            .ok ()))) ∧
    (∀ dest : PathB,
      (c2Fs.existsP dest = true →
        c2Hat.export_to_file c2Fs dest "u" true =
          (c2Fs.eraseP (uuidSibling dest "u"), .error .removeDest)) ∧
      (∃ out : FileData,
        c2Hat.export_to_file c2Fs dest "u" false =
          ((c2Fs.eraseP (uuidSibling dest "u")).insertP dest out, .ok ())) ∧
      (c2Fs.existsP dest = false →
        ∃ out : FileData,
          c2Hat.export_to_file c2Fs dest "u" true =
            ((c2Fs.eraseP (uuidSibling dest "u")).insertP dest out, .ok ())))) :=
  ⟨rfl, rfl, C2_atomic_write c2Hat c2Fs "u" (HatData.new "c2") rfl rfl⟩

section GridLemmas

/-- `sizeScaleX` is at least the exact ceiling square root: `n` frames
fit in a `sizeScaleX n` wide square. -/
lemma sizeScaleX_sq_ge (n : Nat) (h1 : 1 ≤ n) : n ≤ sizeScaleX n * sizeScaleX n := by
  unfold sizeScaleX
  rw [if_neg (by omega)]
  have := Nat.lt_succ_sqrt (n - 1)
  simp only [Nat.succ_eq_add_one] at this
  omega

/-- `sizeScaleX` is the least width whose square holds all frames. -/
lemma sizeScaleX_minimal (n m : Nat) (h1 : 1 ≤ n) (hm : n ≤ m * m) :
    sizeScaleX n ≤ m := by
  unfold sizeScaleX
  rw [if_neg (by omega)]
  have hlt : n - 1 < m * m := by omega
  have := Nat.sqrt_lt.mpr hlt
  omega

/-- `sizeScaleX` is positive for a positive frame count. -/
lemma sizeScaleX_pos (n : Nat) (h1 : 1 ≤ n) : 1 ≤ sizeScaleX n := by
  unfold sizeScaleX
  rw [if_neg (by omega)]
  omega

/-- `sizeScaleY` written without the intermediate lets. -/
lemma sizeScaleY_eq (n : Nat) :
    sizeScaleY n =
      if sizeScaleX n ≤ sizeScaleX n * sizeScaleX n - n then sizeScaleX n - 1
      else sizeScaleX n := rfl

/-- All frames fit in the final grid: the shaved row was empty. -/
lemma le_scaleX_mul_scaleY (n : Nat) (h1 : 1 ≤ n) :
    n ≤ sizeScaleX n * sizeScaleY n := by
  have hsq := sizeScaleX_sq_ge n h1
  have hx1 := sizeScaleX_pos n h1
  rw [sizeScaleY_eq]
  by_cases hc : sizeScaleX n ≤ sizeScaleX n * sizeScaleX n - n
  · rw [if_pos hc, Nat.mul_sub_one]
    generalize ht : sizeScaleX n * sizeScaleX n = t at hc hsq ⊢
    omega
  · rw [if_neg hc]
    exact hsq

end GridLemmas

section PlacementLemmas

/-- The inner draw loop reaches every in-range row of its column: the
break never fires before row `y0` when frame `y0*w + x` exists. -/
lemma colLoop_mem (n w x y0 : Nat) (hn : y0 * w + x < n) :
    ∀ (rem y : Nat), y ≤ y0 → y0 < y + rem →
      (y0 * w + x, x, y0) ∈ colLoop n w x y rem := by
  intro rem
  induction rem with
  | zero => intro y hy hlt; omega
  | succ r ih =>
    intro y hy hlt
    by_cases hyy : y = y0
    · subst hyy
      simp only [colLoop, if_pos hn]
      exact List.mem_cons_self _ _
    · have hylt : y < y0 := by omega
      have hguard : y * w + x < n := by
        have : y * w ≤ y0 * w := Nat.mul_le_mul_right w (by omega)
        omega
      simp only [colLoop, if_pos hguard]
      exact List.mem_cons_of_mem _ (ih (y + 1) (by omega) (by omega))

/-- Everything the inner draw loop emits is an in-range frame placed in
its own column at the row encoding its index. -/
lemma colLoop_sound (n w x : Nat) :
    ∀ (rem y : Nat), ∀ trip ∈ colLoop n w x y rem,
      ∃ y2, trip = (y2 * w + x, x, y2) ∧ y2 * w + x < n ∧ y ≤ y2 ∧ y2 < y + rem := by
  intro rem
  induction rem with
  | zero => intro y trip htrip; simp [colLoop] at htrip
  | succ r ih =>
    intro y trip htrip
    by_cases hguard : y * w + x < n
    · simp only [colLoop, if_pos hguard, List.mem_cons] at htrip
      rcases htrip with rfl | hmem
      · exact ⟨y, rfl, hguard, Nat.le_refl y, by omega⟩
      · obtain ⟨y2, h1, h2, h3, h4⟩ := ih (y + 1) trip hmem
        exact ⟨y2, h1, h2, by omega, by omega⟩
    · simp [colLoop, if_neg hguard] at htrip

/-- Every frame index below the count is drawn, at grid cell
(index mod width, index div width). -/
lemma placements_mem (n : Nat) (h1 : 1 ≤ n) :
    ∀ i, i < n → (i, i % sizeScaleX n, i / sizeScaleX n) ∈ placements n := by
  intro i hi
  have hx1 := sizeScaleX_pos n h1
  have hwh := le_scaleX_mul_scaleY n h1
  unfold placements
  rw [List.mem_flatMap]
  refine ⟨i % sizeScaleX n, List.mem_range.mpr (Nat.mod_lt i (by omega)), ?_⟩
  have hdm : (i / sizeScaleX n) * sizeScaleX n + i % sizeScaleX n = i := by
    rw [Nat.mul_comm]
    exact Nat.div_add_mod i (sizeScaleX n)
  have hy0 : i / sizeScaleX n < sizeScaleY n := by
    rw [Nat.div_lt_iff_lt_mul (by omega)]
    calc i < n := hi
      _ ≤ sizeScaleX n * sizeScaleY n := hwh
      _ = sizeScaleY n * sizeScaleX n := Nat.mul_comm _ _
  have := colLoop_mem n (sizeScaleX n) (i % sizeScaleX n) (i / sizeScaleX n)
    (by rw [hdm]; exact hi) (sizeScaleY n) 0 (Nat.zero_le _) (by omega)
  rw [hdm] at this
  exact this

/-- Every draw the loops perform is of an existing frame at its
left-to-right top-to-bottom cell. -/
lemma placements_sound (n : Nat) (h1 : 1 ≤ n) :
    ∀ trip ∈ placements n,
      ∃ i, i < n ∧ trip = (i, i % sizeScaleX n, i / sizeScaleX n) := by
  intro trip htrip
  have hx1 := sizeScaleX_pos n h1
  unfold placements at htrip
  rw [List.mem_flatMap] at htrip
  obtain ⟨x, hxmem, hcol⟩ := htrip
  have hxlt : x < sizeScaleX n := List.mem_range.mp hxmem
  obtain ⟨y2, rfl, hlt, _, _⟩ := colLoop_sound n (sizeScaleX n) x (sizeScaleY n) 0 trip hcol
  refine ⟨y2 * sizeScaleX n + x, hlt, ?_⟩
  have hmod : (y2 * sizeScaleX n + x) % sizeScaleX n = x := by
    rw [Nat.add_comm, Nat.add_mul_mod_self_right]
    exact Nat.mod_eq_of_lt hxlt
  have hdiv : (y2 * sizeScaleX n + x) / sizeScaleX n = y2 := by
    rw [Nat.add_comm, Nat.add_mul_div_right x y2 (by omega), Nat.div_eq_of_lt hxlt]
    omega
  rw [hmod, hdiv]

end PlacementLemmas

/-- The concrete five-frame grid width: ceil(sqrt 5) = 3. -/
lemma sizeScaleX_five : sizeScaleX 5 = 3 := by
  unfold sizeScaleX
  rw [if_neg (by omega)]
  have h4 : Nat.sqrt 4 = 2 := Nat.sqrt_eq 2
  norm_num [h4]

/-- The concrete five-frame grid height: the last row of the 3x3 grid
would be empty (9 - 5 = 4 >= 3), so it is shaved off. -/
lemma sizeScaleY_five : sizeScaleY 5 = 2 := by
  rw [sizeScaleY_eq, sizeScaleX_five]
  norm_num

/-- C8: the composite-sheet grid of `bitmap_from_ase`.  The width is
the ceiling square root of the frame count (least width whose square
holds all frames); the height is that width, minus one exactly when
the last row would be entirely empty (`width*width - n ≥ width`); the
draw loops place frame `i` at cell `(i mod width, i div width)` —
left-to-right, top-to-bottom — and draw nothing else; for `n = 5` the
grid is 3 wide and 2 high, so the sheet is `3*frameWidth` by
`2*frameHeight` pixels. -/
theorem C8_grid_layout (n : Nat) (h1 : 1 ≤ n) :
    (n ≤ sizeScaleX n * sizeScaleX n ∧ ∀ m : Nat, n ≤ m * m → sizeScaleX n ≤ m) ∧
    (sizeScaleY n = sizeScaleX n - 1 ↔
      sizeScaleX n ≤ sizeScaleX n * sizeScaleX n - n) ∧
    (¬ sizeScaleX n ≤ sizeScaleX n * sizeScaleX n - n → sizeScaleY n = sizeScaleX n) ∧
    (∀ i, i < n → (i, i % sizeScaleX n, i / sizeScaleX n) ∈ placements n) ∧
    (∀ trip ∈ placements n,
      ∃ i, i < n ∧ trip = (i, i % sizeScaleX n, i / sizeScaleX n)) ∧
    (sizeScaleX 5 = 3 ∧ sizeScaleY 5 = 2) ∧
    (∀ a : AseFile, a.frames.length = 5 →
      (bitmap_from_ase a).width = 3 * a.width ∧
      (bitmap_from_ase a).height = 2 * a.height) := by
  have hx1 := sizeScaleX_pos n h1
  refine ⟨⟨sizeScaleX_sq_ge n h1, fun m hm => sizeScaleX_minimal n m h1 hm⟩,
    ?_, ?_, placements_mem n h1, placements_sound n h1,
    ⟨sizeScaleX_five, sizeScaleY_five⟩, ?_⟩
  · rw [sizeScaleY_eq]
    constructor
    · intro hy
      by_cases hc : sizeScaleX n ≤ sizeScaleX n * sizeScaleX n - n
      · exact hc
      · rw [if_neg hc] at hy
        omega
    · intro hc
      rw [if_pos hc]
  · intro hc
    rw [sizeScaleY_eq, if_neg hc]
  · intro a ha
    unfold bitmap_from_ase
    rw [ha]
    constructor
    · show a.width * ((sizeScaleX 5 : Nat) : Int) = 3 * a.width
      rw [sizeScaleX_five]
      push_cast
      ring
    · show a.height * ((sizeScaleY 5 : Nat) : Int) = 2 * a.height
      rw [sizeScaleY_five]
      push_cast
      ring

/-- Witness for C8 at the five-frame count of the spec's worked
example. -/
theorem C8_grid_layout_witness :
    1 ≤ 5 ∧
    ((5 ≤ sizeScaleX 5 * sizeScaleX 5 ∧ ∀ m : Nat, 5 ≤ m * m → sizeScaleX 5 ≤ m) ∧
      (sizeScaleY 5 = sizeScaleX 5 - 1 ↔
        sizeScaleX 5 ≤ sizeScaleX 5 * sizeScaleX 5 - 5) ∧
      (¬ sizeScaleX 5 ≤ sizeScaleX 5 * sizeScaleX 5 - 5 → sizeScaleY 5 = sizeScaleX 5) ∧
      (∀ i, i < 5 → (i, i % sizeScaleX 5, i / sizeScaleX 5) ∈ placements 5) ∧
      (∀ trip ∈ placements 5,
        ∃ i, i < 5 ∧ trip = (i, i % sizeScaleX 5, i / sizeScaleX 5)) ∧
      (sizeScaleX 5 = 3 ∧ sizeScaleY 5 = 2) ∧
      (∀ a : AseFile, a.frames.length = 5 →
        (bitmap_from_ase a).width = 3 * a.width ∧
        (bitmap_from_ase a).height = 2 * a.height)) :=
  ⟨by decide, C8_grid_layout 5 (by decide)⟩

/-- One extracted animation per recognised tag: dropping unrecognised
names is a filter, not an error. -/
lemma tags_filterMap_length (tags : List AseTag) :
    (tags.filterMap
        (fun t => (nameToAnimType t.name.toLower).map (fun k => (t, k)))).length =
      (tags.filter (fun t => (nameToAnimType t.name.toLower).isSome)).length := by
  induction tags with
  | nil => rfl
  | cons t rest ih =>
    cases hk : nameToAnimType t.name.toLower <;>
      simp [List.filterMap_cons, List.filter_cons, hk, ih]

/-- The list of lowercase names the fixed table recognises. -/
def animNameTable : List String :=
  ["ondefault", "onpressquack", "onreleasequack", "onpetstop", "onpetapproach",
    "onduckdeath", "onduckjump", "onduckland", "onduckglide", "onduckwalk",
    "onducksneak", "onducknetted", "onduckspawned", "onhatpickedup"]

set_option maxHeartbeats 800000 in
/-- C4: importing an aseprite file maps tag names case-insensitively
through the fixed 14-entry table, drops unrecognised names (extraction
still succeeds), and gives every extracted animation `delay = -1`,
`looping = false`, and one frame per authored index of the source's
`from_frame()..to_frame()` range, each carrying that frame's authored
duration divided by 1000 (milliseconds to seconds). -/
theorem C4_aseprite_import (a : AseFile) (p : PathB) :
    ∃ d : AsepriteData, Image.aseprite_data (.Aseprite a p) = some d ∧
      d.frame_size = ⟨a.width, a.height⟩ ∧
      (∀ s1 s2 : String, s1.toLower = s2.toLower →
        nameToAnimType s1.toLower = nameToAnimType s2.toLower) ∧
      (nameToAnimType "ondefault" = some .OnDefault ∧
        nameToAnimType "onpressquack" = some .OnPressQuack ∧
        nameToAnimType "onreleasequack" = some .OnReleaseQuack ∧
        nameToAnimType "onpetstop" = some .OnPetStop ∧
        nameToAnimType "onpetapproach" = some .OnPetApproach ∧
        nameToAnimType "onduckdeath" = some .OnDuckDeath ∧
        nameToAnimType "onduckjump" = some .OnDuckJump ∧
        nameToAnimType "onduckland" = some .OnDuckLand ∧
        nameToAnimType "onduckglide" = some .OnDuckGlide ∧
        nameToAnimType "onduckwalk" = some .OnDuckWalk ∧
        nameToAnimType "onducksneak" = some .OnDuckSneak ∧
        nameToAnimType "onducknetted" = some .OnDuckNetted ∧
        nameToAnimType "onduckspawned" = some .OnDuckSpawned ∧
        nameToAnimType "onhatpickedup" = some .OnHatPickedUp) ∧
      (∀ s : String, s ∉ animNameTable → nameToAnimType s = none) ∧
      d.animations.length =
        (a.tags.filter (fun t => (nameToAnimType t.name.toLower).isSome)).length ∧
      (∀ anim ∈ d.animations, anim.delay = -1 ∧ anim.looping = false) ∧
      (∀ t ∈ a.tags, ∀ k, nameToAnimType t.name.toLower = some k →
        Animation.new k (-1) false (tagFrames a t) ∈ d.animations ∧
        (tagFrames a t).length = t.toFrame - t.fromFrame ∧
        ∀ (j : Nat) (hj : j < (tagFrames a t).length),
          ((tagFrames a t)[j]).value = t.fromFrame + j ∧
          ((tagFrames a t)[j]).delay =
            some ((a.durationAt (t.fromFrame + j) : Rat) / 1000)) := by
  refine ⟨{ frame_size := ⟨a.width, a.height⟩
            animations :=
              (a.tags.filterMap
                  (fun t => (nameToAnimType t.name.toLower).map (fun k => (t, k)))).map
                (fun tk => Animation.new tk.2 (-1) false (tagFrames a tk.1)) },
    rfl, rfl, ?_, ?_, ?_, ?_, ?_, ?_⟩
  · intro s1 s2 hs
    rw [hs]
  · exact ⟨rfl, rfl, rfl, rfl, rfl, rfl, rfl, rfl, rfl, rfl, rfl, rfl, rfl, rfl⟩
  · intro s hs
    have hn1 : ¬ s = "ondefault" := fun hc => hs (by rw [hc]; unfold animNameTable; exact List.Mem.head _)
    have hn2 : ¬ s = "onpressquack" := fun hc => hs (by rw [hc]; unfold animNameTable; exact List.Mem.tail _ (List.Mem.head _))
    have hn3 : ¬ s = "onreleasequack" := fun hc => hs (by rw [hc]; unfold animNameTable; exact List.Mem.tail _ (List.Mem.tail _ (List.Mem.head _)))
    have hn4 : ¬ s = "onpetstop" := fun hc => hs (by rw [hc]; unfold animNameTable; exact List.Mem.tail _ (List.Mem.tail _ (List.Mem.tail _ (List.Mem.head _))))
    have hn5 : ¬ s = "onpetapproach" := fun hc => hs (by rw [hc]; unfold animNameTable; exact List.Mem.tail _ (List.Mem.tail _ (List.Mem.tail _ (List.Mem.tail _ (List.Mem.head _)))))
    have hn6 : ¬ s = "onduckdeath" := fun hc => hs (by rw [hc]; unfold animNameTable; exact List.Mem.tail _ (List.Mem.tail _ (List.Mem.tail _ (List.Mem.tail _ (List.Mem.tail _ (List.Mem.head _))))))
    have hn7 : ¬ s = "onduckjump" := fun hc => hs (by rw [hc]; unfold animNameTable; exact List.Mem.tail _ (List.Mem.tail _ (List.Mem.tail _ (List.Mem.tail _ (List.Mem.tail _ (List.Mem.tail _ (List.Mem.head _)))))))
    have hn8 : ¬ s = "onduckland" := fun hc => hs (by rw [hc]; unfold animNameTable; exact List.Mem.tail _ (List.Mem.tail _ (List.Mem.tail _ (List.Mem.tail _ (List.Mem.tail _ (List.Mem.tail _ (List.Mem.tail _ (List.Mem.head _))))))))
    have hn9 : ¬ s = "onduckglide" := fun hc => hs (by rw [hc]; unfold animNameTable; exact List.Mem.tail _ (List.Mem.tail _ (List.Mem.tail _ (List.Mem.tail _ (List.Mem.tail _ (List.Mem.tail _ (List.Mem.tail _ (List.Mem.tail _ (List.Mem.head _)))))))))
    have hn10 : ¬ s = "onduckwalk" := fun hc => hs (by rw [hc]; unfold animNameTable; exact List.Mem.tail _ (List.Mem.tail _ (List.Mem.tail _ (List.Mem.tail _ (List.Mem.tail _ (List.Mem.tail _ (List.Mem.tail _ (List.Mem.tail _ (List.Mem.tail _ (List.Mem.head _))))))))))
    have hn11 : ¬ s = "onducksneak" := fun hc => hs (by rw [hc]; unfold animNameTable; exact List.Mem.tail _ (List.Mem.tail _ (List.Mem.tail _ (List.Mem.tail _ (List.Mem.tail _ (List.Mem.tail _ (List.Mem.tail _ (List.Mem.tail _ (List.Mem.tail _ (List.Mem.tail _ (List.Mem.head _)))))))))))
    have hn12 : ¬ s = "onducknetted" := fun hc => hs (by rw [hc]; unfold animNameTable; exact List.Mem.tail _ (List.Mem.tail _ (List.Mem.tail _ (List.Mem.tail _ (List.Mem.tail _ (List.Mem.tail _ (List.Mem.tail _ (List.Mem.tail _ (List.Mem.tail _ (List.Mem.tail _ (List.Mem.tail _ (List.Mem.head _))))))))))))
    have hn13 : ¬ s = "onduckspawned" := fun hc => hs (by rw [hc]; unfold animNameTable; exact List.Mem.tail _ (List.Mem.tail _ (List.Mem.tail _ (List.Mem.tail _ (List.Mem.tail _ (List.Mem.tail _ (List.Mem.tail _ (List.Mem.tail _ (List.Mem.tail _ (List.Mem.tail _ (List.Mem.tail _ (List.Mem.tail _ (List.Mem.head _)))))))))))))
    have hn14 : ¬ s = "onhatpickedup" := fun hc => hs (by rw [hc]; unfold animNameTable; exact List.Mem.tail _ (List.Mem.tail _ (List.Mem.tail _ (List.Mem.tail _ (List.Mem.tail _ (List.Mem.tail _ (List.Mem.tail _ (List.Mem.tail _ (List.Mem.tail _ (List.Mem.tail _ (List.Mem.tail _ (List.Mem.tail _ (List.Mem.tail _ (List.Mem.head _))))))))))))))
    unfold nameToAnimType
    rw [if_neg hn1, if_neg hn2, if_neg hn3, if_neg hn4, if_neg hn5, if_neg hn6, if_neg hn7, if_neg hn8, if_neg hn9, if_neg hn10, if_neg hn11, if_neg hn12, if_neg hn13, if_neg hn14]
  · simp only [List.length_map]
    exact tags_filterMap_length a.tags
  · intro anim ha
    simp only [List.mem_map] at ha
    obtain ⟨tk, _, rfl⟩ := ha
    exact ⟨rfl, rfl⟩
  · intro t ht k hk
    refine ⟨?_, ?_, ?_⟩
    · simp only [List.mem_map]
      refine ⟨(t, k), List.mem_filterMap.mpr ⟨t, ht, ?_⟩, rfl⟩
      rw [hk]
      rfl
    · simp [tagFrames]
    · intro j hj
      constructor
      · simp [tagFrames, Frame.with_delay]
      · simp [tagFrames, Frame.with_delay]

section RoundTripSupport

/-- Replacing the base keeps the variant and exposes the new base. -/
lemma withBase_base (d : HatElementData) (b : HatBaseData) : (d.withBase b).base = b := by
  cases d <;> rfl

/-- Base replacement collapses. -/
lemma withBase_withBase (d : HatElementData) (b b2 : HatBaseData) :
    (d.withBase b).withBase b2 = d.withBase b2 := by
  cases d <;> rfl

/-- Base replacement keeps the constructor. -/
lemma withBase_variantKind (d : HatElementData) (b : HatBaseData) :
    (d.withBase b).variantKind = d.variantKind := by
  cases d <;> rfl

/-- Replacing only the image path of the base is the identity once the
image path is erased again. -/
lemma withBase_imagePath_erase (d : HatElementData) (q : Option PathB) :
    ((d.withBase { d.base with local_image_path := q }).withImagePath none) =
      d.withImagePath none := by
  unfold HatElementData.withImagePath
  rw [withBase_base, withBase_withBase]

/-- `is_unique` is a function of the element's variant. -/
lemma is_unique_eq_variant (e : HatElementR) :
    e.is_unique = true ↔
      (e.data.variantKind = HatType.Wearable ∨ e.data.variantKind = HatType.Wings) := by
  obtain ⟨d, tex, bm, i⟩ := e
  cases d <;> simp [HatElementR.is_unique, HatElementData.variantKind]

/-- Pet count of a plain element list. -/
def petCountL (es : List HatElementR) : Nat :=
  (es.filter (fun e => e.is_pet)).length

/-- Count of elements with a given tag in a plain element list. -/
def tagCountL (t : HatType) (es : List HatElementR) : Nat :=
  (es.filter (fun e => e.base.hat_type = t)).length

/-- Inserting a fresh key appends. -/
lemma assocInsert_append (k : Nat) (v : HatElementR) :
    ∀ l : List (Nat × HatElementR), (∀ kv ∈ l, kv.1 ≠ k) →
      assocInsert k v l = l ++ [(k, v)] := by
  intro l
  induction l with
  | nil => intro _; rfl
  | cons kv rest ih =>
    intro hall
    obtain ⟨k2, v2⟩ := kv
    have hne : k2 ≠ k := hall (k2, v2) (List.mem_cons_self _ _)
    simp only [assocInsert, if_neg hne, List.cons_append, List.cons.injEq, true_and]
    exact ih (fun kv2 h2 => hall kv2 (List.mem_cons_of_mem _ h2))

/-- Appending one component to a path appends to its last component. -/
lemma appendToLast_concat (l : PathB) (a s : String) :
    appendToLast (l ++ [a]) s = l ++ [a ++ s] := by
  induction l with
  | nil => rfl
  | cons x xs ih =>
    cases xs with
    | nil => rfl
    | cons y ys =>
      simp only [List.cons_append, appendToLast, List.cons.injEq, true_and]
      exact ih

/-- The save temp path under a root, concretely. -/
lemma uuidSibling_append (l : PathB) (a : String) (s : String) :
    uuidSibling (l ++ [a]) s = l ++ [a ++ "_" ++ s] := by
  unfold uuidSibling
  rw [appendToLast_concat]
  simp [String.append_assoc]

/-- A passing integrity check means the root exists. -/
lemma check_ok_root (h : Hat) (fs : FS)
    (hint : h.check_files_integrity fs = .ok ()) : fs.existsP h.path = true := by
  by_cases hex : fs.existsP h.path = true
  · exact hex
  · simp only [Bool.not_eq_true] at hex
    simp [Hat.check_files_integrity, hex] at hint

/-- The filesystem a successful save leaves behind (integrity passed,
deletion oracle quiet): the original minus the temp entry, with the
snapshot written at `<root>/data.json`. -/
lemma save_ok_fs (h : Hat) (fs : FS) (suffix : String) (data : HatData)
    (hint : h.check_files_integrity fs = .ok ())
    (hgen : h.gen_hat_data .Folder = .ok data) :
    h.save fs suffix false =
      ((fs.eraseP (uuidSibling (h.path ++ ["data.json"]) suffix)).insertP
          (h.path ++ ["data.json"]) (.hatJson data),
        .ok ()) := by
  have htd : uuidSibling (h.path ++ ["data.json"]) suffix ≠ h.path ++ (["data.json"] : PathB) :=
    uuidSibling_ne _ _
  have hsave : h.save fs suffix false =
      (let dest : PathB := h.path ++ ["data.json"]
        let tmp : PathB := uuidSibling dest suffix
        let fs2 : FS := (fs.insertP tmp (.raw "")).insertP tmp (.hatJson data)
        if fs2.existsP dest then ((fs2.eraseP dest).renameP tmp dest, .ok ())
        else (fs2.renameP tmp dest, .ok ())) := by
    unfold Hat.save
    rw [hint, hgen]
    rfl
  rw [hsave]
  have hexfs2 :
      ((fs.insertP (uuidSibling (h.path ++ ["data.json"]) suffix) (.raw "")).insertP
          (uuidSibling (h.path ++ ["data.json"]) suffix) (.hatJson data)).existsP
        (h.path ++ ["data.json"]) = fs.existsP (h.path ++ ["data.json"]) := by
    rw [FS.existsP_insertP_ne _ _ _ _ (Ne.symm htd), FS.existsP_insertP_ne _ _ _ _ (Ne.symm htd)]
  by_cases hdest : fs.existsP (h.path ++ ["data.json"]) = true
  · simp only [hexfs2, hdest, if_true]
    rw [renameP_after_write _ _ _ _ _ htd]
  · simp only [Bool.not_eq_true] at hdest
    simp only [hexfs2, hdest, Bool.false_eq_true, if_false]
    rw [renameP_after_write_nodelete _ _ _ _ _ htd]

end RoundTripSupport

/-- Pet count of a cons. -/
lemma petCountL_cons (e : HatElementR) (rest : List HatElementR) :
    petCountL (e :: rest) = petCountL rest + (if e.is_pet = true then 1 else 0) := by
  cases hp : e.is_pet <;> simp [petCountL, List.filter_cons, hp] <;> omega

/-- Tag count of a cons. -/
lemma tagCountL_cons (t : HatType) (e : HatElementR) (rest : List HatElementR) :
    tagCountL t (e :: rest) =
      tagCountL t rest + (if e.base.hat_type = t then 1 else 0) := by
  by_cases hp : e.base.hat_type = t <;> simp [tagCountL, List.filter_cons, hp] <;> omega

/-- Pet count over the aggregate's element list. -/
lemma pets_amount_eq (h : Hat) : h.pets_amount = petCountL h.elementsL := rfl

/-- Tag count over the aggregate's element list. -/
lemma countTag_eq (h : Hat) (t : HatType) : h.countTag t = tagCountL t h.elementsL := rfl

/-- Tag count zero means the tag is absent. -/
lemma has_element_false_of_count_zero (h : Hat) (t : HatType)
    (hz : h.countTag t = 0) : h.has_element t = false := by
  cases hc : h.has_element t
  · rfl
  · unfold Hat.has_element at hc
    rw [List.any_eq_true] at hc
    obtain ⟨e, he, hp⟩ := hc
    unfold Hat.countTag at hz
    rw [List.length_eq_zero, List.filter_eq_nil_iff] at hz
    exact absurd hp (hz e he)

/-- The element loop of `Hat::load`, run on the snapshot a folder-mode
`gen_hat_data` produced from well-formed elements (tags truthful,
invariant counts respected, fresh ids available, all images readable
with their original pixel content): it succeeds and reconstructs every
element up to the semantic view. -/
lemma loadElems_roundtrip (root : PathB) (fs : FS) :
    ∀ (es : List HatElementR) (ds : List HatElementData) (hat0 : Hat) (nextId : Nat),
      genElems root .Folder es = .ok ds →
      (∀ e ∈ es, ∃ rel : PathB, rel ≠ [] ∧ e.bitmap.path = some (root ++ rel) ∧
        fs (root ++ rel) = some (.png e.bitmap.content)) →
      (∀ e ∈ es, e.tagOk) →
      hat0.pets_amount + petCountL es ≤ 5 →
      hat0.countTag .Wearable + tagCountL .Wearable es ≤ 1 →
      hat0.countTag .Wings + tagCountL .Wings es ≤ 1 →
      (∀ kv ∈ hat0.elements, kv.1 < nextId) →
      ∃ hat1, loadElems root fs ds nextId hat0 = .ok hat1 ∧
        hat1.elementsL.map HatElementR.semView =
          hat0.elementsL.map HatElementR.semView ++ es.map HatElementR.semView ∧
        hat1.path = hat0.path ∧ hat1.name = hat0.name := by
  intro es
  induction es with
  | nil =>
    intro ds hat0 nextId hgen _ _ _ _ _ _
    simp only [genElems, Except.ok.injEq] at hgen
    subst hgen
    exact ⟨hat0, rfl, by simp, rfl, rfl⟩
  | cons e rest ih =>
    intro ds hat0 nextId hgen hfs htags hpets hwear hwings hkeys
    obtain ⟨rel, hrelne, hbpath, hfsrel⟩ := hfs e (List.mem_cons_self e rest)
    have hlocal := localPath_under root rel hrelne
    simp only [genElems, hbpath, hlocal] at hgen
    cases hrest : genElems root .Folder rest with
    | error err => rw [hrest] at hgen; simp at hgen
    | ok ds2 =>
      rw [hrest] at hgen
      simp only [Except.ok.injEq] at hgen
      subst hgen
      have hd0base :
          (e.data.withBase { e.data.base with local_image_path := some rel }).base =
            { e.data.base with local_image_path := some rel } :=
        withBase_base _ _
      have hd0lip :
          (e.data.withBase { e.data.base with local_image_path := some rel }).base.local_image_path =
            some rel := by
        rw [hd0base]
      simp only [loadElems, hd0lip, hfsrel]
      set e2 : HatElementR :=
        loadHatElement (e.data.withBase { e.data.base with local_image_path := some rel })
          (.Bitmap { path := some (root ++ rel), content := e.bitmap.content }) nextId with he2def
      have he2data :
          e2.data = e.data.withBase { e.data.base with local_image_path := some rel } := rfl
      have he2tag : e2.base.hat_type = e.base.hat_type := by
        show e2.data.base.hat_type = e.base.hat_type
        rw [he2data, withBase_base]
        rfl
      have he2pet : e2.is_pet = e.is_pet := by
        unfold HatElementR.is_pet
        rw [he2tag]
      have he2content : e2.bitmap.content = e.bitmap.content := rfl
      have he2id : e2.id = nextId := rfl
      have he2variant : e2.data.variantKind = e.data.variantKind := by
        rw [he2data, withBase_variantKind]
      -- the add succeeds and appends
      have hguard1 : (e2.is_pet && !hat0.can_add_pets) = false := by
        cases hp : e2.is_pet
        · simp
        · have hep : e.is_pet = true := by rw [← he2pet]; exact hp
          rw [petCountL_cons, hep, if_pos rfl] at hpets
          have : hat0.can_add_pets = true := by
            unfold Hat.can_add_pets
            simp only [decide_eq_true_eq]
            unfold MAX_PETS
            omega
          simp [this]
      have hguard2 : (e2.is_unique && hat0.has_element e2.base.hat_type) = false := by
        cases hu : e2.is_unique
        · simp
        · have hvar := (is_unique_eq_variant e2).mp hu
          rw [he2variant] at hvar
          have htagok := htags e (List.mem_cons_self e rest)
          unfold HatElementR.tagOk at htagok
          rcases hvar with hW | hW
          · have hetag : e.base.hat_type = .Wearable := by rw [htagok, hW]
            rw [tagCountL_cons, hetag, if_pos rfl] at hwear
            have hz : hat0.countTag .Wearable = 0 := by omega
            have := has_element_false_of_count_zero hat0 .Wearable hz
            rw [he2tag, hetag]
            simp [this]
          · have hetag : e.base.hat_type = .Wings := by rw [htagok, hW]
            rw [tagCountL_cons, hetag, if_pos rfl] at hwings
            have hz : hat0.countTag .Wings = 0 := by omega
            have := has_element_false_of_count_zero hat0 .Wings hz
            rw [he2tag, hetag]
            simp [this]
      have hadd : hat0.add_element e2 =
          { hat0 with elements := hat0.elements ++ [(nextId, e2)] } := by
        unfold Hat.add_element
        rw [hguard1, hguard2]
        simp only [Bool.false_eq_true, if_false]
        rw [he2id, assocInsert_append nextId e2 hat0.elements
          (fun kv hkv => Nat.ne_of_lt (hkeys kv hkv))]
      rw [hadd]
      set hat02 : Hat := { hat0 with elements := hat0.elements ++ [(nextId, e2)] } with hhat02
      have h02L : hat02.elementsL = hat0.elementsL ++ [e2] := by
        unfold Hat.elementsL
        simp [hhat02]
      have h02pets : hat02.pets_amount = hat0.pets_amount + (if e2.is_pet = true then 1 else 0) := by
        rw [pets_amount_eq, pets_amount_eq, h02L]
        unfold petCountL
        rw [List.filter_append, List.length_append]
        cases hp : e2.is_pet <;> simp [hp]
      have h02tag : ∀ t, hat02.countTag t =
          hat0.countTag t + (if e2.base.hat_type = t then 1 else 0) := by
        intro t
        rw [countTag_eq, countTag_eq, h02L]
        unfold tagCountL
        rw [List.filter_append, List.length_append]
        by_cases hp : e2.base.hat_type = t <;> simp [hp]
      obtain ⟨hat1, hload, hsem, hpath1, hname1⟩ :=
        ih ds2 hat02 (nextId + 1) hrest
          (fun x hx => hfs x (List.mem_cons_of_mem e hx))
          (fun x hx => htags x (List.mem_cons_of_mem e hx))
          (by
            rw [h02pets, he2pet]
            rw [petCountL_cons] at hpets
            omega)
          (by
            rw [h02tag, he2tag]
            rw [tagCountL_cons] at hwear
            omega)
          (by
            rw [h02tag, he2tag]
            rw [tagCountL_cons] at hwings
            omega)
          (by
            intro kv hkv
            rw [hhat02] at hkv
            simp only [List.mem_append, List.mem_singleton] at hkv
            rcases hkv with hkv | rfl
            · exact Nat.lt_succ_of_lt (hkeys kv hkv)
            · exact Nat.lt_succ_self nextId)
      refine ⟨hat1, hload, ?_, by rw [hpath1], by rw [hname1]⟩
      rw [hsem, h02L]
      have hsemview : e2.semView = e.semView := by
        unfold HatElementR.semView
        rw [he2content, he2data, withBase_imagePath_erase]
      simp [hsemview]

/-- C1: the save/load round trip.  For an aggregate with a valid set
of elements — truthful kind tags, invariant counts respected, every
element's bitmap loaded from a file strictly under the root whose
on-disk pixels match the in-memory bitmap (and which is not the
`data.json` slot nor the transient temp name) — loading the folder a
successful save wrote yields an aggregate with the same element kinds,
per-kind configuration fields, frame/animation data and semantic pixel
content, element by element (`semView` erases exactly the recomputed
persisted image path, the texture handle and the process-local id). -/
theorem C1_round_trip (H : Hat) (fs : FS) (suffix : String) (startId hatId : Nat)
    (hint : H.check_files_integrity fs = .ok ())
    (himg : fs.existsP (H.path ++ ["images"]) = true)
    (hpaths : ∀ e ∈ H.elementsL, ∃ rel : PathB, rel ≠ [] ∧
      e.bitmap.path = some (H.path ++ rel) ∧
      fs (H.path ++ rel) = some (.png e.bitmap.content) ∧
      rel ≠ ["data.json"] ∧ rel ≠ ["data.json_" ++ suffix])
    (htags : ∀ e ∈ H.elementsL, e.tagOk)
    (hpets : H.pets_amount ≤ 5)
    (hwear : H.countTag .Wearable ≤ 1)
    (hwings : H.countTag .Wings ≤ 1) :
    ∃ (fs2 : FS) (H2 : Hat),
      H.save fs suffix false = (fs2, .ok ()) ∧
      Hat.load H.path fs2 startId hatId = .ok (H2, fs2) ∧
      H2.elementsL.map HatElementR.semView = H.elementsL.map HatElementR.semView ∧
      H2.name = H.name ∧ H2.path = H.path := by
  obtain ⟨ds, hds, _⟩ := genElems_folder_ok H.path H.elementsL
    (by
      intro e he
      obtain ⟨rel, h1, h2, _, _, _⟩ := hpaths e he
      exact ⟨rel, h1, h2⟩)
  have hgen : H.gen_hat_data .Folder = .ok { elements := ds, name := H.name } := by
    unfold Hat.gen_hat_data
    rw [hds]
    rfl
  have hsave := save_ok_fs H fs suffix { elements := ds, name := H.name } hint hgen
  have htmp2 : uuidSibling (H.path ++ ["data.json"]) suffix =
      H.path ++ ["data.json_" ++ suffix] := by
    rw [uuidSibling_append]
    rw [show ("data.json" ++ "_" : String) = "data.json_" from rfl]
  set data : HatData := { elements := ds, name := H.name } with hdata
  set dest : PathB := H.path ++ ["data.json"] with hdestdef
  set tmp : PathB := uuidSibling dest suffix with htmpdef
  set fs2 : FS := (fs.eraseP tmp).insertP dest (.hatJson data) with hfs2def
  have hrootne1 : H.path ≠ dest := by
    rw [hdestdef]
    intro hc
    simp at hc
  have hrootne2 : H.path ≠ tmp := by
    rw [htmp2]
    intro hc
    simp at hc
  have hfs2root : fs2.existsP H.path = true := by
    rw [hfs2def]
    unfold FS.existsP FS.insertP FS.eraseP
    rw [if_neg hrootne1, if_neg hrootne2]
    exact check_ok_root H fs hint
  have himgne1 : H.path ++ (["images"] : PathB) ≠ dest := by
    rw [hdestdef]
    intro hc
    have h2 := List.append_cancel_left hc
    simp only [List.cons.injEq, and_true] at h2
    have hlen := congrArg String.length h2
    have e1 : ("images" : String).length = 6 := rfl
    have e2 : ("data.json" : String).length = 9 := rfl
    omega
  have himgne2 : H.path ++ (["images"] : PathB) ≠ tmp := by
    rw [htmp2]
    intro hc
    have h2 := List.append_cancel_left hc
    simp only [List.cons.injEq, and_true] at h2
    have hlen := congrArg String.length h2
    rw [String.length_append] at hlen
    have e1 : ("images" : String).length = 6 := rfl
    have e2 : ("data.json_" : String).length = 10 := rfl
    omega
  have hfs2img : fs2.existsP (H.path ++ ["images"]) = true := by
    rw [hfs2def]
    unfold FS.existsP FS.insertP FS.eraseP
    rw [if_neg himgne1, if_neg himgne2]
    exact himg
  have hfs2dest : fs2 dest = some (.hatJson data) := by
    rw [hfs2def]
    unfold FS.insertP
    rw [if_pos rfl]
  have hfs2elem : ∀ e ∈ H.elementsL, ∃ rel : PathB, rel ≠ [] ∧
      e.bitmap.path = some (H.path ++ rel) ∧
      fs2 (H.path ++ rel) = some (.png e.bitmap.content) := by
    intro e he
    obtain ⟨rel, h1, h2, h3, h4, h5⟩ := hpaths e he
    refine ⟨rel, h1, h2, ?_⟩
    rw [hfs2def]
    unfold FS.insertP FS.eraseP
    rw [if_neg (by rw [hdestdef]; intro hc; exact h4 (List.append_cancel_left hc)),
      if_neg (by rw [htmp2]; intro hc; exact h5 (List.append_cancel_left hc))]
    exact h3
  obtain ⟨hat1, hload, hsem, hpath1, hname1⟩ :=
    loadElems_roundtrip H.path fs2 H.elementsL ds (Hat.new H.path data.name hatId) startId
      hds hfs2elem htags
      (by
        rw [show (Hat.new H.path data.name hatId).pets_amount = 0 from rfl]
        rw [pets_amount_eq] at hpets
        omega)
      (by
        rw [show (Hat.new H.path data.name hatId).countTag .Wearable = 0 from rfl]
        rw [countTag_eq] at hwear
        omega)
      (by
        rw [show (Hat.new H.path data.name hatId).countTag .Wings = 0 from rfl]
        rw [countTag_eq] at hwings
        omega)
      (by
        intro kv hkv
        simp [Hat.new] at hkv)
  have hloadeq : Hat.load H.path fs2 startId hatId = .ok (hat1, fs2) := by
    unfold Hat.load
    rw [hfs2root, hfs2img]
    simp only [Bool.not_true, Bool.false_eq_true, if_false]
    rw [hfs2dest]
    show (loadElems H.path fs2 data.elements startId (Hat.new H.path data.name hatId)).map
        (fun h => (h, fs2)) = .ok (hat1, fs2)
    rw [show data.elements = ds from rfl, hload]
    rfl
  refine ⟨fs2, hat1, hsave, hloadeq, ?_, ?_, ?_⟩
  · rw [hsem]
    simp [Hat.new, Hat.elementsL]
  · rw [hname1]
    rfl
  · rw [hpath1]
    rfl

/-- One-element hat for the round-trip witness; its bitmap was loaded
from `r/images/a.png`. -/
def c1Elem : HatElementR :=
  { data := .Wearable WearableData.default
    texture := { width := 32, height := 32, path := some ["r", "images", "a.png"] }
    bitmap := { path := some ["r", "images", "a.png"], content := ⟨32, 32, 7⟩ }
    id := 1 }

/-- The hat for the C1 witness. -/
def c1Hat : Hat :=
  { elements := [(1, c1Elem)]
    path := ["r"]
    name := "h1"
    name_set_by_user := false
    id := 0 }

/-- The filesystem for the C1 witness: root, images directory, and the
element's png. -/
def c1Fs : FS := fun q =>
  if q = (["r"] : PathB) then some .dir
  else if q = (["r", "images"] : PathB) then some .dir
  else if q = (["r", "images", "a.png"] : PathB) then some (.png ⟨32, 32, 7⟩)
  else none

/-- Witness for C1 at the concrete one-element aggregate. -/
theorem C1_round_trip_witness :
    c1Hat.check_files_integrity c1Fs = .ok () ∧
    c1Fs.existsP (c1Hat.path ++ ["images"]) = true ∧
    (∀ e ∈ c1Hat.elementsL, ∃ rel : PathB, rel ≠ [] ∧
      e.bitmap.path = some (c1Hat.path ++ rel) ∧
      c1Fs (c1Hat.path ++ rel) = some (.png e.bitmap.content) ∧
      rel ≠ ["data.json"] ∧ rel ≠ ["data.json_" ++ "u"]) ∧
    (∀ e ∈ c1Hat.elementsL, e.tagOk) ∧
    c1Hat.pets_amount ≤ 5 ∧
    c1Hat.countTag .Wearable ≤ 1 ∧
    c1Hat.countTag .Wings ≤ 1 ∧
    (∃ (fs2 : FS) (H2 : Hat),
      c1Hat.save c1Fs "u" false = (fs2, .ok ()) ∧
      Hat.load c1Hat.path fs2 10 1 = .ok (H2, fs2) ∧
      H2.elementsL.map HatElementR.semView = c1Hat.elementsL.map HatElementR.semView ∧
      H2.name = c1Hat.name ∧ H2.path = c1Hat.path) := by
  have hpaths : ∀ e ∈ c1Hat.elementsL, ∃ rel : PathB, rel ≠ [] ∧
      e.bitmap.path = some (c1Hat.path ++ rel) ∧
      c1Fs (c1Hat.path ++ rel) = some (.png e.bitmap.content) ∧
      rel ≠ ["data.json"] ∧ rel ≠ ["data.json_" ++ "u"] := by
    intro e he
    have hee : e = c1Elem := by
      simpa [c1Hat, Hat.elementsL] using he
    subst hee
    exact ⟨["images", "a.png"], by decide, by decide, by decide, by decide, by decide⟩
  have htags : ∀ e ∈ c1Hat.elementsL, e.tagOk := by
    intro e he
    have hee : e = c1Elem := by
      simpa [c1Hat, Hat.elementsL] using he
    subst hee
    decide
  exact ⟨by rfl, by decide, hpaths, htags, by decide, by decide, by decide,
    C1_round_trip c1Hat c1Fs "u" 10 1 (by rfl) (by decide) hpaths htags
      (by decide) (by decide) (by decide)⟩
